import Mathlib

/-!
Verification development for the `@devscast/config` configuration loader
(TypeScript sources: `src/dotenv.ts`, `src/config.ts`, `src/env.ts`).

The TypeScript code is shallowly embedded:
* the process environment (`process.env`) and string maps are association
  lists `List (String × String)` with JavaScript object semantics
  (first-match lookup, update-in-place-or-append assignment; JS objects
  never carry duplicate keys, which theorems assume via `Nodup` where needed);
* fallible code (`throw`) becomes `Except`;
* subprocess execution (command substitution) is a parameter
  `exec : String → Env → Option String` (`none` models a non-zero exit
  status or an execution failure, `some out` models captured stdout);
* JS builtins (`Number`, `String`, `trim`, …) are modelled by executable
  Lean functions documented at their definitions.
-/

namespace ConfigTs

/-- The process environment / a dotenv value map: a JS-object-like
association list from names to string values. -/
abbrev Env := List (String × String)

/-- First-match lookup, modelling JS property read `obj[k]`
(`none` models `undefined`). -/
def lookupEnv : Env → String → Option String
  | [], _ => none
  | (k', v) :: rest, k => if k' = k then some v else lookupEnv rest k

/-- JS property write `obj[k] = v`: updates the first matching key in place,
otherwise appends (JS objects keep insertion order). -/
def envSet : Env → String → String → Env
  | [], k, v => [(k, v)]
  | (k', v') :: rest, k, v =>
    if k' = k then (k, v) :: rest else (k', v') :: envSet rest k v

/-- `NODE_DOTENV_VARS`, the sentinel env var from `src/dotenv.ts`. -/
def SENTINEL_VARS : String := "NODE_DOTENV_VARS"

/-- `NODE_DOTENV_PATH`, the informational sentinel from `src/dotenv.ts`. -/
def SENTINEL_PATH : String := "NODE_DOTENV_PATH"

/-- JS `Set.add` on an insertion-ordered list of names. -/
def insertUnique (l : List String) (x : String) : List String :=
  if x ∈ l then l else l ++ [x]

/-- First-occurrence deduplication: the element order of
`new Set(list)` iteration. -/
def dedupFirst (l : List String) : List String := l.foldl insertUnique []

/-- Models JS `String.prototype.split(",")` (kernel-computable versions of
the string builtins are used throughout so that concrete witnesses can be
checked by `decide`). -/
def splitCommaGo : List Char → List Char → List String
  | acc, [] => [String.mk acc.reverse]
  | acc, c :: rest =>
    if c = ',' then String.mk acc.reverse :: splitCommaGo [] rest
    else splitCommaGo (c :: acc) rest

/-- JS `s.split(",")`. -/
def splitComma (s : String) : List String := splitCommaGo [] s.data

/-- ASCII whitespace, the fragment of JS `trim`'s character class that can
occur in the names handled here. -/
def isJsSpace (c : Char) : Bool := c = ' ' ∨ c = '\t' ∨ c = '\n' ∨ c = '\r'

/-- Models JS `String.prototype.trim()`. -/
def trimJs (s : String) : String :=
  String.mk (((s.data.dropWhile isJsSpace).reverse.dropWhile isJsSpace).reverse)

/-- The `loadedVars` set computed by `Dotenv.populate` / `Dotenv.lexValue`:
`(process.env[NODE_DOTENV_VARS] ?? "").split(",").map(trim).filter(Boolean)`
collected into a JS `Set` (insertion order, first occurrences). -/
def sentinelSet (e : Env) : List String :=
  dedupFirst (((splitComma ((lookupEnv e SENTINEL_VARS).getD "")).map
    trimJs).filter (fun s => s ≠ ""))

/-- `Array.from(set).join(",")`. -/
def joinComma : List String → String
  | [] => ""
  | [x] => x
  | x :: rest => x ++ "," ++ joinComma rest

/-- The entry loop of `Dotenv.populate` (`src/dotenv.ts` lines 176-185):
iterates over the entries of `values`, skipping an entry whose name is
not in `loadedVars` when `override` is off and the variable is already
set; writes the value otherwise and records the name into `loadedVars`.
Returns the updated environment, the updated `loadedVars` list, the
`updateLoadedVars` flag, and the list of names actually written. -/
def populateGo (ov : Bool) :
    Env → List String → Bool → List (String × String) →
    Env × List String × Bool × List String
  | e, lv, upd, [] => (e, lv, upd, [])
  | e, lv, upd, (name, value) :: rest =>
    if ¬ lv.contains name ∧ ¬ ov ∧ (lookupEnv e name).isSome then
      populateGo ov e lv upd rest
    else
      let e' := envSet e name value
      let lv' := if lv.contains name then lv else lv ++ [name]
      let upd' := if lv.contains name then upd else true
      let r := populateGo ov e' lv' upd' rest
      (r.1, r.2.1, r.2.2.1, name :: r.2.2.2)

/-- `Dotenv.populate(values, overrideExisting)` (`src/dotenv.ts` lines
167-190), with the write-back of the comma-joined `loadedVars` into
`NODE_DOTENV_VARS` when any name was added.  The second component is the
list of names actually written to the environment by this call
(instrumentation used to state the sentinel-tracking claims). -/
def populate (e : Env) (values : List (String × String)) (ov : Bool) :
    Env × List String :=
  let lv := sentinelSet e
  let r := populateGo ov e lv false values
  ((if r.2.2.1 then envSet r.1 SENTINEL_VARS (joinComma r.2.1) else r.1),
    r.2.2.2)

/-- Error raised by the env accessor's callable read
(`createEnvAccessor` in `src/env.ts`): `Missing environment variable`. -/
structure MissingEnvErr where
  name : String
deriving Repr, DecidableEq

/-- The `registered` set captured by `createEnvAccessor` (`src/env.ts`),
a JS `Set` in insertion order. -/
structure AccessorState where
  registered : List String
deriving Repr, DecidableEq

/-- `createEnvAccessor(knownKeys)` — the initial accessor state. -/
def createEnvAccessor (knownKeys : List String) : AccessorState :=
  ⟨dedupFirst knownKeys⟩

/-- The callable read of the accessor (`src/env.ts`): registers the name
first, then returns the value, the supplied default, or raises
`MissingEnv`.  The registration (a closure-captured `Set` mutation) takes
effect even on the raising path, so the updated state is returned alongside
the outcome. -/
def accessorRead (st : AccessorState) (env : Env) (name : String)
    (deflt : Option String) : AccessorState × Except MissingEnvErr String :=
  let st' : AccessorState := ⟨insertUnique st.registered name⟩
  match lookupEnv env name with
  | some v => (st', .ok v)
  | none =>
    match deflt with
    | some d => (st', .ok d)
    | none => (st', .error ⟨name⟩)

/-- `accessor.optional(name)` (`src/env.ts`): registers the name, then
returns the value or `undefined`. -/
def accessorOptional (st : AccessorState) (env : Env) (name : String) :
    AccessorState × Option String :=
  (⟨insertUnique st.registered name⟩, lookupEnv env name)

/-- `accessor.has(name)` (`src/env.ts`): true iff the name is registered or
is an own property of `process.env`. -/
def accessorHas (st : AccessorState) (env : Env) (name : String) : Bool :=
  st.registered.contains name || (lookupEnv env name).isSome

/-- `accessor.register(names)` (`src/env.ts`): additive. -/
def accessorRegister (st : AccessorState) (names : List String) :
    AccessorState :=
  ⟨names.foldl insertUnique st.registered⟩

/-- `PathError` from `src/dotenv.ts`: env path missing or not readable. -/
structure PathErr where
  filepath : String
deriving Repr, DecidableEq

/-- Instrumentation for the cascade claims: the observable processing steps
of `Dotenv.loadEnv`, in order — a dotenv file handed to
`loadBuffer` (parse + populate), or the default-env assignment. -/
inductive Event where
  | file (name : String)
  | setDefault (key value : String)
deriving Repr, DecidableEq

/-- Result of a completed cascade: the final process environment, the names
written by its `populate` calls (in order), and the processing trace. -/
abbrev LoadResult := Env × List String × List Event

/-- The filesystem as seen by `Dotenv.loadEnv`: `fs p` is `some m` when the
file at path `p` exists and its dotenv text parses to the map `m`
(`tryReadFile` followed by `Dotenv.parse` inside `loadBuffer`; the lexer
itself is modelled separately, the cascade claims are about file order and
populate semantics, so the per-file parsed maps are taken as given). -/
abbrev DotenvFs := String → Option (List (String × String))

/-- `Dotenv.loadEnv`, lines 122-126 of `src/dotenv.ts`:
`let env = process.env[k]; if (env == null) { populate({[k]: defaultEnv});
env = defaultEnv }`.  The fourth component is the local variable `env`. -/
def loadEnvStep2 (envKey defaultEnv : String) (ov : Bool)
    (e : Env) (ws : List String) (tr : List Event) :
    Env × List String × List Event × String :=
  match lookupEnv e envKey with
  | some v => (e, ws, tr, v)
  | none =>
    let r := populate e [(envKey, defaultEnv)] ov
    (r.1, ws ++ r.2, tr ++ [Event.setDefault envKey defaultEnv], defaultEnv)

/-- `Dotenv.loadEnv`, lines 128-132: load `base.local` unless the current
env is in `testEnvs`, then refresh `env` from `process.env[k]`. -/
def loadEnvStep3 (fs : DotenvFs) (p envKey : String)
    (testEnvs : List String) (ov : Bool)
    (s : Env × List String × List Event × String) :
    Env × List String × List Event × String :=
  if testEnvs.contains s.2.2.2 then s
  else
    match fs (p ++ ".local") with
    | some m =>
      let r := populate s.1 m ov
      (r.1, s.2.1 ++ r.2, s.2.2.1 ++ [Event.file (p ++ ".local")],
        (lookupEnv r.1 envKey).getD s.2.2.2)
    | none => s

/-- `Dotenv.loadEnv`, lines 134-140: stop when `env` is `"local"`,
otherwise load `base.<env>` and `base.<env>.local` when present. -/
def loadEnvStep56 (fs : DotenvFs) (p : String) (ov : Bool)
    (s : Env × List String × List Event × String) : LoadResult :=
  if s.2.2.2 = "local" then (s.1, s.2.1, s.2.2.1)
  else
    let s4 : Env × List String × List Event :=
      match fs (p ++ "." ++ s.2.2.2) with
      | some m =>
        let r := populate s.1 m ov
        (r.1, s.2.1 ++ r.2, s.2.2.1 ++ [Event.file (p ++ "." ++ s.2.2.2)])
      | none => (s.1, s.2.1, s.2.2.1)
    match fs (p ++ "." ++ s.2.2.2 ++ ".local") with
    | some m =>
      let r := populate s4.1 m ov
      (r.1, s4.2.1 ++ r.2,
        s4.2.2 ++ [Event.file (p ++ "." ++ s.2.2.2 ++ ".local")])
    | none => s4

/-- `Dotenv.loadEnv`, lines 122-141 of `src/dotenv.ts` — the steps after
the base (or `.dist`) file has been loaded. -/
def loadEnvTail (fs : DotenvFs) (p envKey defaultEnv : String)
    (testEnvs : List String) (ov : Bool)
    (e : Env) (ws : List String) (tr : List Event) : LoadResult :=
  loadEnvStep56 fs p ov
    (loadEnvStep3 fs p envKey testEnvs ov
      (loadEnvStep2 envKey defaultEnv ov e ws tr))

/-- `Dotenv.loadEnv` (`src/dotenv.ts` lines 101-141): writes the
`NODE_DOTENV_PATH` sentinel, loads the base file (or `base.dist`, raising
`PathError` when neither exists), then runs the remaining cascade steps. -/
def loadEnv (fs : DotenvFs) (e0 : Env) (p envKey defaultEnv : String)
    (testEnvs : List String) (ov : Bool) : Except PathErr LoadResult :=
  let e1 := envSet e0 SENTINEL_PATH p
  match fs p with
  | some m =>
    let r := populate e1 m ov
    .ok (loadEnvTail fs p envKey defaultEnv testEnvs ov
      r.1 r.2 [Event.file p])
  | none =>
    match fs (p ++ ".dist") with
    | some m =>
      let r := populate e1 m ov
      .ok (loadEnvTail fs p envKey defaultEnv testEnvs ov
        r.1 r.2 [Event.file (p ++ ".dist")])
    | none => .error ⟨p⟩

/-- Step 2 of the spec's cascade wording (§4.2): after the base file, if
`process_env[envKey]` is unset it is set to `defaultEnv` via `populate`. -/
def loadEnvSpecStep2 (envKey defaultEnv : String) (ov : Bool)
    (e : Env) (ws : List String) (tr : List Event) : LoadResult :=
  match lookupEnv e envKey with
  | some _ => (e, ws, tr)
  | none =>
    let r := populate e [(envKey, defaultEnv)] ov
    (r.1, ws ++ r.2, tr ++ [Event.setDefault envKey defaultEnv])

/-- Step 3 of the spec's cascade wording: `base.local` is loaded only when
the current env — read from `process_env[envKey]` — is not in `testEnvs`. -/
def loadEnvSpecStep3 (fs : DotenvFs) (p envKey defaultEnv : String)
    (testEnvs : List String) (ov : Bool) (s : LoadResult) : LoadResult :=
  let cur := (lookupEnv s.1 envKey).getD defaultEnv
  if testEnvs.contains cur then s
  else
    match fs (p ++ ".local") with
    | some m =>
      let r := populate s.1 m ov
      (r.1, s.2.1 ++ r.2, s.2.2 ++ [Event.file (p ++ ".local")])
    | none => s

/-- Steps 4-6 of the spec's cascade wording: if the env equals `"local"`,
loading stops; otherwise `base.<env>` and then `base.<env>.local` are
loaded, each only when present. -/
def loadEnvSpecStep56 (fs : DotenvFs) (p envKey defaultEnv : String)
    (ov : Bool) (s : LoadResult) : LoadResult :=
  let cur := (lookupEnv s.1 envKey).getD defaultEnv
  if cur = "local" then s
  else
    let s4 : LoadResult :=
      match fs (p ++ "." ++ cur) with
      | some m =>
        let r := populate s.1 m ov
        (r.1, s.2.1 ++ r.2, s.2.2 ++ [Event.file (p ++ "." ++ cur)])
      | none => s
    match fs (p ++ "." ++ cur ++ ".local") with
    | some m =>
      let r := populate s4.1 m ov
      (r.1, s4.2.1 ++ r.2, s4.2.2 ++ [Event.file (p ++ "." ++ cur ++ ".local")])
    | none => s4

/-- The cascade as worded by the specification, steps 2-6 of §4.2, stated
for comparison with `loadEnvTail`. -/
def loadEnvSpecTail (fs : DotenvFs) (p envKey defaultEnv : String)
    (testEnvs : List String) (ov : Bool)
    (e : Env) (ws : List String) (tr : List Event) : LoadResult :=
  loadEnvSpecStep56 fs p envKey defaultEnv ov
    (loadEnvSpecStep3 fs p envKey defaultEnv testEnvs ov
      (loadEnvSpecStep2 envKey defaultEnv ov e ws tr))

/-- Concrete filesystem for the C9 counterexample: only the base file
exists. -/
def fsC9 : DotenvFs := fun q => if q = "b" then some [("FOO", "BAR")] else none

/-- A well-formed variable name as far as the comma-joined
`NODE_DOTENV_VARS` round trip is concerned: nonempty, trim-stable, and
comma-free.  Names accepted by the dotenv lexer (`_?[A-Z][A-Z0-9_]*`)
all satisfy this. -/
def ValidName (s : String) : Prop :=
  s ≠ "" ∧ trimJs s = s ∧ ',' ∉ s.data

instance (s : String) : Decidable (ValidName s) := by
  unfold ValidName
  infer_instance

instance {ε α : Type} [DecidableEq ε] [DecidableEq α] :
    DecidableEq (Except ε α) := fun x y =>
  match x, y with
  | .ok a, .ok b =>
    if h : a = b then .isTrue (by rw [h])
    else .isFalse (fun hh => h (Except.ok.inj hh))
  | .error a, .error b =>
    if h : a = b then .isTrue (by rw [h])
    else .isFalse (fun hh => h (Except.error.inj hh))
  | .ok _, .error _ => .isFalse (fun hh => Except.noConfusion hh)
  | .error _, .ok _ => .isFalse (fun hh => Except.noConfusion hh)

/-- A dotenv filesystem whose files never assign the `NODE_DOTENV_VARS`
sentinel itself and only define well-formed names. -/
def FsOk (fs : DotenvFs) : Prop :=
  ∀ q m, fs q = some m → SENTINEL_VARS ∉ m.map Prod.fst ∧
    ∀ x ∈ m.map Prod.fst, ValidName x

/-- The sentinel-tracking invariant: the current sentinel set is the
initial sentinel set united with the names written so far. -/
def SentinelUnion (e0 : Env) (e : Env) (ws : List String) : Prop :=
  ∀ x, x ∈ sentinelSet e ↔ (x ∈ sentinelSet e0 ∨ x ∈ ws)

/-- `FormatError` from `src/dotenv.ts` (message only; the file, line, and
column of `createFormatError` are position bookkeeping orthogonal to the
value semantics verified here). -/
structure FormatErr where
  message : String
deriving Repr, DecidableEq

/-- `[A-Z]`. -/
def isUpperAZ (c : Char) : Bool := 'A' ≤ c ∧ c ≤ 'Z'

/-- `[A-Z0-9_]`, the tail characters of the variable-name pattern
`_?[A-Z][A-Z0-9_]*` used by `resolveVariables` (no `i` flag there). -/
def isNameTail (c : Char) : Bool :=
  isUpperAZ c ∨ ('0' ≤ c ∧ c ≤ '9') ∨ c = '_'

/-- JS `value.includes(c)`. -/
def hasChar (c : Char) : List Char → Bool
  | [] => false
  | x :: xs => x = c ∨ hasChar c xs

/-- One match of the `resolveVariables` regex
`(?<!\\)(\\*)\$(?!\()(\{)?(_?[A-Z][A-Z0-9_]*)?(:[-=][^}]*)?(\})?`:
the captured backslash run, the full matched text, and the four optional
groups. -/
structure VarMatch where
  bs : List Char
  m : List Char
  opening : Bool
  name : Option String
  dflt : Option (Char × String)
  closing : Bool
deriving Repr, DecidableEq

/-- The name group `_?[A-Z][A-Z0-9_]*` at the head of `cs` (greedy;
`[A-Z0-9_]` cannot match the characters that follow a maximal run, so no
backtracking arises). -/
def matchVarName : List Char → Option (List Char × List Char)
  | [] => none
  | c :: rest =>
    if c = '_' then
      match rest with
      | c2 :: rest2 =>
        if isUpperAZ c2 then
          some ('_' :: c2 :: rest2.takeWhile isNameTail,
            rest2.dropWhile isNameTail)
        else none
      | [] => none
    else if isUpperAZ c then
      some (c :: rest.takeWhile isNameTail, rest.dropWhile isNameTail)
    else none

/-- The default group `:[-=][^}]*` at the head of `cs`: the modifier sign
and the (greedy) body. -/
def matchDefault : List Char → Option (Char × String × List Char)
  | ':' :: c :: rest =>
    if c = '-' ∨ c = '=' then
      some (c, String.mk (rest.takeWhile (fun x => x ≠ '}')),
        rest.dropWhile (fun x => x ≠ '}'))
    else none
  | _ => none

/-- Attempt the regex match at a `$` preceded by the (maximal) backslash
run `bs`; `cs` holds the characters after the `$`.  `none` exactly when
the negative lookahead `(?!\()` rejects the position. -/
def matchAfterDollar (bs : List Char) (cs : List Char) :
    Option (VarMatch × List Char) :=
  match cs with
  | '(' :: _ => none
  | _ =>
    let op : Bool × List Char :=
      match cs with
      | '{' :: r => (true, r)
      | _ => (false, cs)
    let nm : Option String × List Char :=
      match matchVarName op.2 with
      | some (n, r) => (some (String.mk n), r)
      | none => (none, op.2)
    let df : Option (Char × String) × List Char :=
      match matchDefault nm.2 with
      | some (sign, body, r) => (some (sign, body), r)
      | none => (none, nm.2)
    let cl : Bool × List Char :=
      match df.2 with
      | '}' :: r => (true, r)
      | _ => (false, df.2)
    some ({ bs := bs,
            m := bs ++ '$' :: ((if op.1 then ['{'] else []) ++
              (match nm.1 with | some n => n.data | none => []) ++
              (match df.1 with
                | some (sign, body) => ':' :: sign :: body.data
                | none => []) ++
              (if cl.1 then ['}'] else [])),
            opening := op.1, name := nm.1, dflt := df.1,
            closing := cl.1 }, cl.2)

/-- `Dotenv.findInvalidDefaultChar` (`src/dotenv.ts` lines 562-575). -/
def findInvalidDefaultChar : List Char → Option Char
  | [] => none
  | c :: rest =>
    if c = '\'' ∨ c = '"' ∨ c = '{' then some c
    else if c = '\\' then
      (if rest.head? = some '$' then some '$' else some '\\')
    else if c = '$' then some '$'
    else findInvalidDefaultChar rest

/-- The value lookup of `resolveVariables` (`src/dotenv.ts` lines
513-522): parse-produced value when the name is loaded-by-us, else the
process environment, else any value produced earlier in this parse, else
the empty string. -/
def lookupVar (lv : List String) (env : Env) (vals : Env) (name : String) :
    String :=
  if lv.contains name && (lookupEnv vals name).isSome then
    (lookupEnv vals name).getD ""
  else if (lookupEnv env name).isSome then
    (lookupEnv env name).getD ""
  else if (lookupEnv vals name).isSome then
    (lookupEnv vals name).getD ""
  else ""

/-- The replacement callback of `resolveVariables` (`src/dotenv.ts` lines
501-544): an odd backslash run escapes the `$`; no name leaves the match
untouched; `{` without `}` raises; otherwise look the name up, apply a
`:-`/`:=` default when the value is empty (validating the default body,
and storing the default into the parse values on `:=`), and re-attach an
unmatched `}`. -/
def applyVarMatch (lv : List String) (env : Env) (vals : Env)
    (md : VarMatch) : Except FormatErr (List Char × Env) :=
  if md.bs.length % 2 = 1 then .ok (md.m.drop 1, vals)
  else
    match md.name with
    | none => .ok (md.m, vals)
    | some name =>
      if md.opening ∧ ¬ md.closing then
        .error ⟨"Unclosed braces on variable expansion"⟩
      else
        let val := lookupVar lv env vals name
        match (if val = "" then md.dflt else none) with
        | some (sign, body) =>
          match findInvalidDefaultChar body.data with
          | some bad =>
            .error ⟨"Unsupported character \"" ++ String.mk [bad] ++
              "\" found in the default value of variable \"$" ++ name ++
              "\"."⟩
          | none =>
            let vals' := if sign = '=' then envSet vals name body else vals
            let val3 := if ¬ md.opening ∧ md.closing then body ++ "\x7d" else body
            .ok (md.bs ++ val3.data, vals')
        | none =>
          let val3 := if ¬ md.opening ∧ md.closing then val ++ "\x7d" else val
          .ok (md.bs ++ val3.data, vals)

/-- The global-regex replacement loop of `resolveVariables`: scan left to
right; a maximal backslash run followed by `$` starts a match attempt
(the lookbehind `(?<!\\)` and greedy `\\*` make runs atomic); `$(` is
left in place (the lookahead), everything else is copied.  `fuel` bounds
the recursion; `fuel ≥ length + 1` never runs out. -/
def rvGo (lv : List String) (env : Env) :
    Nat → Env → List Char → Except FormatErr (List Char × Env)
  | 0, vals, cs => .ok (cs, vals)
  | fuel + 1, vals, cs =>
    match cs with
    | [] => .ok ([], vals)
    | c :: rest =>
      if c = '\\' ∨ c = '$' then
        let bs := cs.takeWhile (fun x => x = '\\')
        match cs.dropWhile (fun x => x = '\\') with
        | '$' :: afterD =>
          match matchAfterDollar bs afterD with
          | none =>
            match rvGo lv env fuel vals afterD with
            | .ok (out, vals') => .ok (bs ++ '$' :: out, vals')
            | .error e => .error e
          | some (md, rest') =>
            match applyVarMatch lv env vals md with
            | .error e => .error e
            | .ok (repl, vals') =>
              match rvGo lv env fuel vals' rest' with
              | .ok (out, vals2) => .ok (repl ++ out, vals2)
              | .error e => .error e
        | other =>
          match rvGo lv env fuel vals other with
          | .ok (out, vals') => .ok (bs ++ out, vals')
          | .error e => .error e
      else
        match rvGo lv env fuel vals rest with
        | .ok (out, vals') => .ok (c :: out, vals')
        | .error e => .error e

/-- `Dotenv.resolveVariables` (`src/dotenv.ts` lines 493-546): early
return when the value has no `$`, else run the replacement. -/
def resolveVariables (lv : List String) (env : Env) (vals : Env)
    (value : String) : Except FormatErr (String × Env) :=
  if ¬ hasChar '$' value.data then .ok (value, vals)
  else
    match rvGo lv env (value.data.length + 1) vals value.data with
    | .ok (out, vals') => .ok (String.mk out, vals')
    | .error e => .error e

/-- A configuration tree (`src/config.ts`): null, boolean, number, string,
array, or plain object (a JS object is an insertion-ordered map with
unique keys).  JS numbers are modelled as `Option Int`: `some n` is the
integer `n`, `none` stands for a non-integer number (`NaN` included) —
sufficient for the integer-valued scalars exercised here. -/
inductive Tree where
  | null
  | bool (b : Bool)
  | num (n : Option Int)
  | str (s : String)
  | arr (items : List Tree)
  | obj (entries : List (String × Tree))
deriving Repr

/-- JS property read `obj[k]` on a tree object. -/
def treeGet : List (String × Tree) → String → Option Tree
  | [], _ => none
  | (k', v) :: rest, k => if k' = k then some v else treeGet rest k

/-- JS property write `obj[k] = v` on a tree object: update in place or
append. -/
def objSet : List (String × Tree) → String → Tree → List (String × Tree)
  | [], k, v => [(k, v)]
  | (k', v') :: rest, k, v =>
    if k' = k then (k, v) :: rest else (k', v') :: objSet rest k v

/-- The keys of a tree object, in order. -/
def objKeys (es : List (String × Tree)) : List String := es.map Prod.fst

/-- `Array.isArray` / shape tests used to state the merge rules. -/
def Tree.isArr : Tree → Bool
  | .arr _ => true
  | _ => false

/-- `isPlainObject` shape test on trees. -/
def Tree.isObj : Tree → Bool
  | .obj _ => true
  | _ => false

mutual

/-- `cloneValue` (`src/config.ts` lines 414-427): arrays and plain objects
are cloned element-wise, every other value is returned as is. -/
def cloneValue : Tree → Tree
  | .arr items => .arr (cloneList items)
  | .obj entries => .obj (cloneEntries entries)
  | t => t

/-- The element loop of `cloneValue` on an array. -/
def cloneList : List Tree → List Tree
  | [] => []
  | t :: ts => cloneValue t :: cloneList ts

/-- The entry loop of `cloneValue` on a plain object. -/
def cloneEntries : List (String × Tree) → List (String × Tree)
  | [] => []
  | (k, v) :: es => (k, cloneValue v) :: cloneEntries es

end

mutual

/-- `mergeValues` on two present trees (`src/config.ts` lines 382-401):
two arrays — `next` wins, cloned element-wise; two plain objects —
key-wise merge; anything else — clone of `next`. -/
def mergeTrees : Tree → Tree → Tree
  | .arr _, .arr bs => .arr (cloneList bs)
  | .obj b, .obj n => .obj (mergeNext (cloneEntries b) b n)
  | _, next => cloneValue next
termination_by _t1 t2 => (sizeOf t2, 0)

/-- The second loop of the object case of `mergeValues`
(lines 395-397): `result[k] = k in b ? mergeValues(b[k], v) : cloneValue(v)`
for each entry `(k, v)` of `next`, starting from the cloned base
(`acc`). -/
def mergeNext (acc : List (String × Tree)) (b : List (String × Tree)) :
    List (String × Tree) → List (String × Tree)
  | [] => acc
  | (k, v) :: rest =>
    match treeGet b k with
    | some bv => mergeNext (objSet acc k (mergeTrees bv v)) b rest
    | none => mergeNext (objSet acc k (cloneValue v)) b rest
termination_by n => (sizeOf n, 1)

end

/-- The object-merge result: cloned base overlaid with `next`. -/
def mergeObjEntries (b n : List (String × Tree)) : List (String × Tree) :=
  mergeNext (cloneEntries b) b n

/-- `mergeValues(base, next)` including the `undefined` checks
(`src/config.ts` lines 379-380): `none` models an absent (`undefined`)
argument. -/
def mergeValues : Option Tree → Option Tree → Option Tree
  | base, none => base.map cloneValue
  | none, some n => some (cloneValue n)
  | some b, some n => some (mergeTrees b n)

/-- Correspondence between the code cascade state (which caches the env
string in its fourth component) and the spec cascade state (which re-reads
`process_env[envKey]` at each decision point). -/
def StepRel (envKey defaultEnv : String)
    (c : Env × List String × List Event × String) (s : LoadResult) : Prop :=
  c.1 = s.1 ∧ c.2.1 = s.2.1 ∧ c.2.2.1 = s.2.2 ∧
  c.2.2.2 = (lookupEnv s.1 envKey).getD defaultEnv ∧
  (lookupEnv s.1 envKey).isSome = true

/-- The cascade as worded by the specification, step 1 of §4.2: process
`base`, or `base.dist` when `base` is absent, raising a path error when
neither exists (the `NODE_DOTENV_PATH` bookkeeping is the sentinel write
described in the spec's data model §3). -/
def loadEnvSpec (fs : DotenvFs) (e0 : Env) (p envKey defaultEnv : String)
    (testEnvs : List String) (ov : Bool) : Except PathErr LoadResult :=
  let e1 := envSet e0 SENTINEL_PATH p
  match fs p with
  | some m =>
    let r := populate e1 m ov
    .ok (loadEnvSpecTail fs p envKey defaultEnv testEnvs ov
      r.1 r.2 [Event.file p])
  | none =>
    match fs (p ++ ".dist") with
    | some m =>
      let r := populate e1 m ov
      .ok (loadEnvSpecTail fs p envKey defaultEnv testEnvs ov
        r.1 r.2 [Event.file (p ++ ".dist")])
    | none => .error ⟨p⟩

/-- ASCII lower-casing as performed by JS `toLowerCase` on the characters
appearing in placeholders (the `i` regex flag compares case-insensitively). -/
def asciiLower (c : Char) : Char :=
  if 'A' ≤ c ∧ c ≤ 'Z' then Char.ofNat (c.toNat + 32) else c

/-- Case-insensitive literal match at the head of the input, returning the
rest on success (the `i` flag of `ENV_PLACEHOLDER_ANY` / `_FULL` in
`src/index.ts` lines 119-120). -/
def matchCI : List Char → List Char → Option (List Char)
  | [], cs => some cs
  | _ :: _, [] => none
  | p :: ps, c :: cs =>
    if asciiLower c = asciiLower p then matchCI ps cs else none

/-- The name character class `[A-Z0-9_]` under the `i` flag, i.e.
`[A-Za-z0-9_]`. -/
def isNameCharCI (c : Char) : Bool :=
  ('A' ≤ c && c ≤ 'Z') || ('a' ≤ c && c ≤ 'z') ||
    ('0' ≤ c && c ≤ '9') || c == '_'

/-- Greedy span of name characters (the `([A-Z0-9_]+)` capture; greediness
is exact here because `)` is not a name character). -/
def takeName : List Char → List Char × List Char
  | [] => ([], [])
  | c :: cs =>
    if isNameCharCI c then
      let r := takeName cs
      (c :: r.1, r.2)
    else ([], c :: cs)

/-- The optional `(?:(string|number|boolean):)?` group.  The captured type
is stored lower-cased, mirroring `rawType.toLowerCase()` at the use sites.
No backtracking is needed: when a type keyword plus `:` is present, the
empty-group alternative always fails later at the `:`. -/
def matchTypePrefix (cs : List Char) : Option String × List Char :=
  match matchCI "string:".data cs with
  | some rest => (some "string", rest)
  | none =>
    match matchCI "number:".data cs with
    | some rest => (some "number", rest)
    | none =>
      match matchCI "boolean:".data cs with
      | some rest => (some "boolean", rest)
      | none => (none, cs)

/-- One `%env((type:)?NAME)%` placeholder match at the head of the input
(`ENV_PLACEHOLDER_ANY` at a position; anchored use models
`ENV_PLACEHOLDER_FULL`).  Returns the lower-cased type, the name with its
original case, and the rest of the input. -/
def matchPlaceholder (cs : List Char) :
    Option (Option String × String × List Char) :=
  match matchCI "%env(".data cs with
  | none => none
  | some r1 =>
    let tr := matchTypePrefix r1
    let nr := takeName tr.2
    match nr.1 with
    | [] => none
    | _ =>
      match nr.2 with
      | ')' :: '%' :: rest => some (tr.1, String.mk nr.1, rest)
      | _ => none

/-- Digit-fold for the decimal-integer fragment of the JS `Number`
builtin. -/
def decValueGo : Nat → List Char → Option Nat
  | acc, [] => some acc
  | acc, c :: cs =>
    if '0' ≤ c && c ≤ '9' then decValueGo (acc * 10 + (c.toNat - 48)) cs
    else none

/-- Model of the JS `Number(raw)` coercion on the values that can appear
for integer-typed placeholders: whitespace is trimmed, an empty remainder
is `0`, an optionally-signed run of decimal digits is that integer, and
everything else is `NaN` (`none`).  (The full builtin also accepts float,
hex and exponent forms, which are outside the integer-valued model of
`Tree.num`.) -/
def jsNumber (s : String) : Option Int :=
  match (trimJs s).data with
  | [] => some 0
  | '+' :: ds =>
    if ds = [] then none else (decValueGo 0 ds).map fun n => (n : Int)
  | '-' :: ds =>
    if ds = [] then none else (decValueGo 0 ds).map fun n => -(n : Int)
  | ds => (decValueGo 0 ds).map fun n => (n : Int)

/-- JS `String(x)` on the values produced by `coerceEnvValue` (strings,
numbers and booleans; the other shapes are never passed to it by
`resolvePlaceholders`). -/
def treeToJsString : Tree → String
  | .null => "null"
  | .bool true => "true"
  | .bool false => "false"
  | .num (some n) => toString n
  | .num none => "NaN"
  | .str s => s
  | .arr _ => ""
  | .obj _ => ""

/-- Lower-casing of a whole string (`raw.trim().toLowerCase()` in the
boolean coercion). -/
def asciiLowerStr (s : String) : String := String.mk (s.data.map asciiLower)

/-- `coerceEnvValue(raw, type)` (`src/index.ts` lines 365-386): strings
pass through, `number` applies `Number`, `boolean` recognises the listed
truthy/falsy words and otherwise falls back to JS truthiness of the
normalised string. -/
def coerceEnvValue (raw : String) (ty : Option String) : Tree :=
  match ty with
  | none => .str raw
  | some "string" => .str raw
  | some "number" => .num (jsNumber raw)
  | some "boolean" =>
    let norm := asciiLowerStr (trimJs raw)
    if norm = "true" ∨ norm = "1" ∨ norm = "yes" ∨ norm = "y" ∨ norm = "on"
    then .bool true
    else if norm = "false" ∨ norm = "0" ∨ norm = "no" ∨ norm = "n" ∨
        norm = "off" then .bool false
    else .bool (norm ≠ "")
  | some _ => .str raw

/-- The replacement scan of `value.replace(ENV_PLACEHOLDER_ANY, ...)`
(`src/index.ts` lines 343-348): at each position a placeholder match is
replaced by `String(coerceEnvValue(accessor(name), type))` and scanning
resumes after it; the accessor may raise, which aborts the whole
resolution.  Fuel bounds the scan; the input length suffices since every
step consumes at least one character. -/
def replaceEnvGo (acc : String → Except MissingEnvErr String) :
    Nat → List Char → Except MissingEnvErr (List Char)
  | 0, cs => .ok cs
  | _ + 1, [] => .ok []
  | fuel + 1, c :: cs =>
    match matchPlaceholder (c :: cs) with
    | some (ty, name, rest) =>
      (acc name).bind fun raw =>
        (replaceEnvGo acc fuel rest).map fun tail =>
          (treeToJsString (coerceEnvValue raw ty)).data ++ tail
    | none =>
      (replaceEnvGo acc fuel cs).map fun tail => c :: tail

/-- The string case of `resolvePlaceholders` (`src/index.ts` lines
332-349): a string that is exactly one placeholder becomes the coerced
native value; otherwise each embedded placeholder is replaced by its
stringified coerced value. -/
def rpString (acc : String → Except MissingEnvErr String) (s : String) :
    Except MissingEnvErr Tree :=
  match matchPlaceholder s.data with
  | some (ty, name, []) => (acc name).map fun raw => coerceEnvValue raw ty
  | _ =>
    (replaceEnvGo acc s.data.length s.data).map fun cs =>
      Tree.str (String.mk cs)

mutual

/-- `resolvePlaceholders(value, accessor)` (`src/index.ts` lines 331-363):
strings are resolved by `rpString`, arrays and plain objects are resolved
element-wise, every other value is returned as is.  The accessor models
the `EnvAccessor` callable, raising `MissingEnvErr` for an unset name. -/
def resolvePlaceholders (acc : String → Except MissingEnvErr String) :
    Tree → Except MissingEnvErr Tree
  | .str s => rpString acc s
  | .arr items => (rpList acc items).map Tree.arr
  | .obj entries => (rpEntries acc entries).map Tree.obj
  | t => .ok t

/-- The element loop of `resolvePlaceholders` on an array. -/
def rpList (acc : String → Except MissingEnvErr String) :
    List Tree → Except MissingEnvErr (List Tree)
  | [] => .ok []
  | t :: ts =>
    (resolvePlaceholders acc t).bind fun t2 =>
      (rpList acc ts).map fun ts2 => t2 :: ts2

/-- The entry loop of `resolvePlaceholders` on a plain object. -/
def rpEntries (acc : String → Except MissingEnvErr String) :
    List (String × Tree) → Except MissingEnvErr (List (String × Tree))
  | [] => .ok []
  | (k, t) :: es =>
    (resolvePlaceholders acc t).bind fun t2 =>
      (rpEntries acc es).map fun es2 => (k, t2) :: es2

end

/-- Splits the input at the first unconsidered occurrence of `"$("`
(`value.indexOf("$(", cursor)` in `resolveCommands`): returns the prefix
before the occurrence and the rest after it, or `none` when there is no
occurrence. -/
def findDollarParen : List Char → Option (List Char × List Char)
  | [] => none
  | '$' :: '(' :: rest => some ([], rest)
  | c :: rest => (findDollarParen rest).map fun pr => (c :: pr.1, pr.2)

/-- `countBackslashesLocal(value, start)` (`src/dotenv.ts` lines 18-22):
the length of the backslash run immediately preceding the match. -/
def countBackslashes (pre : List Char) : Nat :=
  (pre.reverse.takeWhile (fun c => c = '\\')).length

/-- `value.replace(RX_TRAILING_NEWLINES, "")` — strips trailing `\n`/`\r`
from the captured stdout (`src/dotenv.ts` lines 14, 490). -/
def trimTrailingNewlines (s : String) : String :=
  String.mk ((s.data.reverse.dropWhile (fun c => c = '\n' ∨ c = '\r')).reverse)

/-- The child environment built by `executeCommand` (`src/dotenv.ts` lines
471-477): the process environment overlaid with the parse-time values whose
name is in `loadedVars` or unset in the process environment. -/
def childEnv (e : Env) (lv : List String)
    (values : List (String × String)) : Env :=
  values.foldl (fun acc nv =>
    if lv.contains nv.1 || (lookupEnv e nv.1).isNone then
      envSet acc nv.1 nv.2
    else acc) e

/-- `Dotenv.executeCommand(content, loadedVars)` (`src/dotenv.ts` lines
466-491).  The `spawnSync` call is abstracted as `run`, which receives the
command text and the child environment and yields either the stdout text
or, when `out.error` is set or the exit status is non-zero, the error text
`(out.stderr || out.error?.message || "")`.  On failure the method throws
`FormatError` with the quoted message; on success it returns the stdout
with trailing newlines removed. -/
def executeCommand (run : String → Env → Except String String) (e : Env)
    (values : List (String × String)) (lv : List String)
    (content : String) : Except FormatErr String :=
  match run content (childEnv e lv values) with
  | .error errText =>
    .error ⟨"Issue expanding a command (" ++ trimJs errText ++ ")"⟩
  | .ok out => .ok (trimTrailingNewlines out)

/-- `Dotenv.extractCommand` (`src/dotenv.ts` lines 444-464): scans the text
after `"$("` with a parenthesis depth counter, returning the command
content and the rest after the closing parenthesis, or raising
`FormatError "Missing closing parenthesis."`. -/
def extractCommand (depth : Nat) (acc : List Char) :
    List Char → Except FormatErr (String × List Char)
  | [] => .error ⟨"Missing closing parenthesis."⟩
  | c :: cs =>
    if c = '(' then extractCommand (depth + 1) (c :: acc) cs
    else if c = ')' then
      if depth = 1 then .ok (String.mk acc.reverse, cs)
      else extractCommand (depth - 1) (c :: acc) cs
    else extractCommand depth (c :: acc) cs

/-- The scanning loop of `Dotenv.resolveCommands` (`src/dotenv.ts` lines
413-442): each unescaped `"$("` starts a command substitution whose output
replaces the `$(...)` text; an escaped occurrence keeps a literal `"$("`
and drops the escaping backslash.  Errors from `extractCommand` and
`executeCommand` propagate.  Fuel bounds the loop; the input length
suffices since every iteration consumes at least two characters. -/
def rcGo (run : String → Env → Except String String) (e : Env)
    (values : List (String × String)) (lv : List String) :
    Nat → List Char → Except FormatErr (List Char)
  | 0, cs => .ok cs
  | fuel + 1, cs =>
    match findDollarParen cs with
    | none => .ok cs
    | some (pre, rest) =>
      if countBackslashes pre % 2 = 1 then
        (rcGo run e values lv fuel rest).map fun tail =>
          pre.dropLast ++ '$' :: '(' :: tail
      else
        match extractCommand 1 [] rest with
        | .error er => .error er
        | .ok (content, after) =>
          match executeCommand run e values lv content with
          | .error er => .error er
          | .ok outv =>
            (rcGo run e values lv fuel after).map fun tail =>
              pre ++ outv.data ++ tail

/-- `Dotenv.resolveCommands(value, loadedVars)` over an abstract command
runner. -/
def resolveCommands (run : String → Env → Except String String) (e : Env)
    (values : List (String × String)) (lv : List String)
    (value : String) : Except FormatErr String :=
  (rcGo run e values lv value.data.length value.data).map String.mk

/-- Sanity check mirroring the repository's populate test: a fresh
populate writes both names and records them in the sentinel. -/
theorem populate_sanity_fresh :
    lookupEnv (populate [] [("APP_DEBUG", "1"), ("DATABASE_URL", "mysql")]
      false).1 SENTINEL_VARS = some "APP_DEBUG,DATABASE_URL" := by decide

/-- Sanity check mirroring the repository's populate test: without
override, a name not loaded by us and already set is preserved. -/
theorem populate_sanity_no_override :
    lookupEnv (populate [(SENTINEL_VARS, "FOO,BAR"), ("DOCUMENT_ROOT", "/var/www")]
      [("FOO", "foo1"), ("DOCUMENT_ROOT", "/boot")] false).1
      "DOCUMENT_ROOT" = some "/var/www" := by decide

theorem lookupEnv_envSet_self (e : Env) (k v : String) :
    lookupEnv (envSet e k v) k = some v := by
  induction e with
  | nil => simp [envSet, lookupEnv]
  | cons hd tl ih =>
    obtain ⟨k', v'⟩ := hd
    by_cases h : k' = k <;> simp [envSet, lookupEnv, h, ih]

theorem lookupEnv_envSet_other (e : Env) (k' k v : String) (h : k' ≠ k) :
    lookupEnv (envSet e k' v) k = lookupEnv e k := by
  induction e with
  | nil => simp [envSet, lookupEnv, h]
  | cons hd tl ih =>
    obtain ⟨k'', v''⟩ := hd
    by_cases h2 : k'' = k' <;> simp [envSet, lookupEnv, h2, h, ih]

theorem populateGo_lookup_notin (ov : Bool) (vs : List (String × String))
    (e : Env) (lv : List String) (upd : Bool) (k : String)
    (hk : k ∉ vs.map Prod.fst) :
    lookupEnv (populateGo ov e lv upd vs).1 k = lookupEnv e k := by
  induction vs generalizing e lv upd with
  | nil => simp [populateGo]
  | cons hd rest ih =>
    obtain ⟨name, value⟩ := hd
    simp only [List.map_cons, List.mem_cons] at hk
    push_neg at hk
    obtain ⟨hne, hrest⟩ := hk
    by_cases hc : ¬ lv.contains name ∧ ¬ ov ∧ (lookupEnv e name).isSome
    · simp only [populateGo, if_pos hc]
      exact ih e lv upd hrest
    · simp only [populateGo, if_neg hc]
      rw [ih _ _ _ hrest, lookupEnv_envSet_other _ _ _ _ (fun h => hne h.symm)]

theorem populateGo_lookup (ov : Bool) (vs : List (String × String))
    (e : Env) (lv : List String) (upd : Bool) (k v : String)
    (hmem : (k, v) ∈ vs) (hnodup : (vs.map Prod.fst).Nodup) :
    lookupEnv (populateGo ov e lv upd vs).1 k =
      if k ∈ lv ∨ ov = true ∨ lookupEnv e k = none then some v
      else lookupEnv e k := by
  induction vs generalizing e lv upd with
  | nil => simp at hmem
  | cons hd rest ih =>
    obtain ⟨name, value⟩ := hd
    simp only [List.map_cons, List.nodup_cons] at hnodup
    obtain ⟨hnamenotin, hnodup'⟩ := hnodup
    by_cases hnk : name = k
    · subst hnk
      have hv : v = value := by
        rcases List.mem_cons.mp hmem with h | h
        · exact congrArg Prod.snd h
        · exact absurd (List.mem_map.mpr ⟨(name, v), h, rfl⟩) hnamenotin
      subst hv
      have hknotin : name ∉ rest.map Prod.fst := hnamenotin
      by_cases hc : ¬ lv.contains name ∧ ¬ ov ∧ (lookupEnv e name).isSome
      · simp only [populateGo, if_pos hc]
        rw [populateGo_lookup_notin ov rest e lv upd name hknotin]
        obtain ⟨h1, h2, h3⟩ := hc
        rw [if_neg]
        push_neg
        refine ⟨fun hmem2 => h1 (List.elem_eq_true_of_mem hmem2), ?_, ?_⟩
        · simpa using h2
        · intro hnone; rw [hnone] at h3; simp at h3
      · simp only [populateGo, if_neg hc]
        rw [populateGo_lookup_notin ov rest _ _ _ name hknotin,
          lookupEnv_envSet_self]
        rw [if_pos]
        by_cases h1 : lv.contains name = true
        · exact Or.inl (List.mem_of_elem_eq_true h1)
        · by_cases h2 : ov = true
          · exact Or.inr (Or.inl h2)
          · refine Or.inr (Or.inr ?_)
            by_cases h3 : lookupEnv e name = none
            · exact h3
            · exact absurd ⟨by simpa using h1, by simpa using h2,
                Option.isSome_iff_ne_none.mpr h3⟩ hc
    · have hmem' : (k, v) ∈ rest := by
        rcases List.mem_cons.mp hmem with h | h
        · exact absurd (congrArg Prod.fst h).symm hnk
        · exact h
      have hlv : (k ∈ (if lv.contains name then lv else lv ++ [name])) ↔
          k ∈ lv := by
        cases h1 : lv.contains name with
        | true => simp
        | false =>
          simp [List.mem_append, show ¬ k = name from fun h => hnk h.symm]
      by_cases hc : ¬ lv.contains name ∧ ¬ ov ∧ (lookupEnv e name).isSome
      · simp only [populateGo, if_pos hc]
        exact ih e lv upd hmem' hnodup'
      · simp only [populateGo, if_neg hc]
        rw [ih _ _ _ hmem' hnodup',
          lookupEnv_envSet_other _ _ _ _ hnk,
          if_congr (or_congr_left hlv) rfl rfl]

theorem mem_insertUnique (l : List String) (x : String) :
    x ∈ insertUnique l x := by
  unfold insertUnique
  by_cases h : x ∈ l <;> simp [h]

/-- C10: every lookup through the env accessor adds the looked-up name to
its registered set — including callable reads that raise `MissingEnv`
(unset variable, no default) and `optional()` calls that return absent —
so `has(name)` answers true after any lookup of `name`, even a failed one. -/
theorem accessor_lookup_registers (st : AccessorState) (env : Env)
    (name : String) (deflt : Option String) :
    (name ∈ (accessorRead st env name deflt).1.registered ∧
      accessorHas (accessorRead st env name deflt).1 env name = true) ∧
    (name ∈ (accessorOptional st env name).1.registered ∧
      accessorHas (accessorOptional st env name).1 env name = true) ∧
    (lookupEnv env name = none → deflt = none →
      (accessorRead st env name deflt).2 = .error ⟨name⟩ ∧
      (accessorOptional st env name).2 = none) := by
  have hmem : name ∈ insertUnique st.registered name := mem_insertUnique _ _
  have hread : (accessorRead st env name deflt).1.registered =
      insertUnique st.registered name := by
    unfold accessorRead
    cases lookupEnv env name with
    | some v => rfl
    | none => cases deflt with
      | some d => rfl
      | none => rfl
  refine ⟨⟨by rw [hread]; exact hmem, ?_⟩,
    ⟨hmem, ?_⟩, fun hunset hdef => ?_⟩
  · unfold accessorHas
    rw [hread]
    simp only [Bool.or_eq_true]
    exact Or.inl (List.elem_eq_true_of_mem hmem)
  · unfold accessorHas accessorOptional
    simp only [Bool.or_eq_true]
    exact Or.inl (List.elem_eq_true_of_mem hmem)
  · subst hdef
    unfold accessorRead accessorOptional
    rw [hunset]
    exact ⟨rfl, rfl⟩

/-- Witness for C10 at a concrete input: a failed required read and an
absent `optional()` read both register the name, so `has` is true after. -/
theorem accessor_lookup_registers_witness :
    ((accessorRead (createEnvAccessor []) [] "MISSING" none).2 =
      .error ⟨"MISSING"⟩) ∧
    accessorHas (accessorRead (createEnvAccessor []) [] "MISSING" none).1
      [] "MISSING" = true ∧
    accessorHas (accessorOptional (createEnvAccessor []) [] "MISSING").1
      [] "MISSING" = true := by
  have h := accessor_lookup_registers (createEnvAccessor []) [] "MISSING" none
  exact ⟨(h.2.2 rfl rfl).1, h.1.2, h.2.1.2⟩

theorem populate_lookup (e : Env) (values : List (String × String))
    (ov : Bool) (k v : String) (hmem : (k, v) ∈ values)
    (hnodup : (values.map Prod.fst).Nodup) (hk : k ≠ SENTINEL_VARS) :
    lookupEnv (populate e values ov).1 k =
      if ov = true ∨ k ∈ sentinelSet e ∨ lookupEnv e k = none then some v
      else lookupEnv e k := by
  have hgo := populateGo_lookup ov values e (sentinelSet e) false k v hmem hnodup
  have hcong : (k ∈ sentinelSet e ∨ ov = true ∨ lookupEnv e k = none) ↔
      (ov = true ∨ k ∈ sentinelSet e ∨ lookupEnv e k = none) := by tauto
  simp only [populate]
  by_cases hupd : (populateGo ov e (sentinelSet e) false values).2.2.1 = true
  · rw [if_pos hupd, lookupEnv_envSet_other _ _ _ _ (Ne.symm hk), hgo,
      if_congr hcong rfl rfl]
  · rw [if_neg hupd, hgo, if_congr hcong rfl rfl]

/-- C2: `populate(values, override)` writes `process_env[k] = v` for an entry
`(k, v)` exactly when `override` is true, or `k` is in the `NODE_DOTENV_VARS`
sentinel set, or `process_env[k]` is currently unset; in particular it never
overwrites an existing key that is neither in the sentinel set nor populated
under `override = true`. -/
theorem populate_write_rule (e : Env) (values : List (String × String))
    (ov : Bool) (k v : String) (hmem : (k, v) ∈ values)
    (hnodup : (values.map Prod.fst).Nodup) (hk : k ≠ SENTINEL_VARS) :
    (lookupEnv (populate e values ov).1 k =
      if ov = true ∨ k ∈ sentinelSet e ∨ lookupEnv e k = none then some v
      else lookupEnv e k) ∧
    (ov = false → k ∉ sentinelSet e → ∀ w, lookupEnv e k = some w →
      lookupEnv (populate e values ov).1 k = some w) := by
  have hmain := populate_lookup e values ov k v hmem hnodup hk
  refine ⟨hmain, fun hov hsent w hw => ?_⟩
  rw [hmain, if_neg]
  · exact hw
  · push_neg
    exact ⟨by simp [hov], hsent, by simp [hw]⟩

/-- Witness for C2 at a concrete input, mirroring the repository's cascade
test: an unset key is written, a pre-existing key outside the sentinel set
is left alone. -/
theorem populate_write_rule_witness :
    lookupEnv (populate [("EXISTING_KEY", "OLD")]
      [("EXISTING_KEY", "NEW"), ("FOO", "BAR")] false).1 "FOO" = some "BAR" ∧
    lookupEnv (populate [("EXISTING_KEY", "OLD")]
      [("EXISTING_KEY", "NEW"), ("FOO", "BAR")] false).1 "EXISTING_KEY" =
      some "OLD" := by
  constructor
  · rw [(populate_write_rule [("EXISTING_KEY", "OLD")]
      [("EXISTING_KEY", "NEW"), ("FOO", "BAR")] false "FOO" "BAR"
      (by decide) (by decide) (by decide)).1]
    decide
  · exact (populate_write_rule [("EXISTING_KEY", "OLD")]
      [("EXISTING_KEY", "NEW"), ("FOO", "BAR")] false "EXISTING_KEY" "NEW"
      (by decide) (by decide) (by decide)).2 rfl (by decide) "OLD" (by decide)

theorem lookupEnv_envSet_isSome (e : Env) (k' k v : String)
    (h : (lookupEnv e k).isSome = true) :
    (lookupEnv (envSet e k' v) k).isSome = true := by
  by_cases hk : k' = k
  · subst hk; rw [lookupEnv_envSet_self]; rfl
  · rw [lookupEnv_envSet_other _ _ _ _ hk]; exact h

theorem populateGo_isSome (ov : Bool) (vs : List (String × String)) :
    ∀ (e : Env) (lv : List String) (upd : Bool) (k : String),
    (lookupEnv e k).isSome = true →
    (lookupEnv (populateGo ov e lv upd vs).1 k).isSome = true := by
  induction vs with
  | nil => intro e lv upd k h; simpa [populateGo] using h
  | cons hd rest ih =>
    intro e lv upd k h
    obtain ⟨name, value⟩ := hd
    by_cases hc : ¬ lv.contains name ∧ ¬ ov ∧ (lookupEnv e name).isSome
    · simp only [populateGo, if_pos hc]
      exact ih e lv upd k h
    · simp only [populateGo, if_neg hc]
      exact ih _ _ _ k (lookupEnv_envSet_isSome e name k value h)

theorem populate_isSome (e : Env) (vs : List (String × String)) (ov : Bool)
    (k : String) (h : (lookupEnv e k).isSome = true) :
    (lookupEnv (populate e vs ov).1 k).isSome = true := by
  simp only [populate]
  by_cases hupd : (populateGo ov e (sentinelSet e) false vs).2.2.1 = true
  · rw [if_pos hupd]
    exact lookupEnv_envSet_isSome _ _ _ _
      (populateGo_isSome ov vs e (sentinelSet e) false k h)
  · rw [if_neg hupd]
    exact populateGo_isSome ov vs e (sentinelSet e) false k h

theorem populate_single_unset (e : Env) (k d : String) (ov : Bool)
    (hk : k ≠ SENTINEL_VARS) (h : lookupEnv e k = none) :
    lookupEnv (populate e [(k, d)] ov).1 k = some d := by
  rw [populate_lookup e [(k, d)] ov k d (by simp) (by simp) hk,
    if_pos (Or.inr (Or.inr h))]

theorem loadEnvStep2_rel (envKey defaultEnv : String) (ov : Bool)
    (e : Env) (ws : List String) (tr : List Event)
    (hk : envKey ≠ SENTINEL_VARS) :
    StepRel envKey defaultEnv (loadEnvStep2 envKey defaultEnv ov e ws tr)
      (loadEnvSpecStep2 envKey defaultEnv ov e ws tr) := by
  unfold loadEnvStep2 loadEnvSpecStep2 StepRel
  cases h : lookupEnv e envKey with
  | some v => exact ⟨rfl, rfl, rfl, by simp [h], by simp [h]⟩
  | none =>
    have hd := populate_single_unset e envKey defaultEnv ov hk h
    exact ⟨rfl, rfl, rfl, by simp [hd], by simp [hd]⟩

theorem loadEnvStep3_rel (fs : DotenvFs) (p envKey defaultEnv : String)
    (testEnvs : List String) (ov : Bool)
    (c : Env × List String × List Event × String) (s : LoadResult)
    (h : StepRel envKey defaultEnv c s) :
    StepRel envKey defaultEnv (loadEnvStep3 fs p envKey testEnvs ov c)
      (loadEnvSpecStep3 fs p envKey defaultEnv testEnvs ov s) := by
  obtain ⟨h1, h2, h3, h4, h5⟩ := h
  obtain ⟨v, hv⟩ := Option.isSome_iff_exists.mp h5
  rw [hv, Option.getD_some] at h4
  unfold loadEnvStep3 loadEnvSpecStep3
  rw [h4, hv]
  simp only [Option.getD_some]
  by_cases ht : testEnvs.contains v
  · rw [if_pos ht, if_pos ht]
    exact ⟨h1, h2, h3, by rw [hv]; simpa using h4, h5⟩
  · rw [if_neg ht, if_neg ht]
    cases hf : fs (p ++ ".local") with
    | none => exact ⟨h1, h2, h3, by rw [hv]; simpa using h4, h5⟩
    | some m =>
      rw [h1, h2, h3]
      have hsome : (lookupEnv (populate s.1 m ov).1 envKey).isSome = true :=
        populate_isSome s.1 m ov envKey (by rw [hv]; rfl)
      obtain ⟨w, hw⟩ := Option.isSome_iff_exists.mp hsome
      exact ⟨rfl, rfl, rfl, by simp [hw], by simp [hw]⟩

theorem loadEnvStep56_rel (fs : DotenvFs) (p envKey defaultEnv : String)
    (ov : Bool) (c : Env × List String × List Event × String)
    (s : LoadResult) (h : StepRel envKey defaultEnv c s) :
    loadEnvStep56 fs p ov c = loadEnvSpecStep56 fs p envKey defaultEnv ov s := by
  obtain ⟨h1, h2, h3, h4, h5⟩ := h
  obtain ⟨v, hv⟩ := Option.isSome_iff_exists.mp h5
  rw [hv, Option.getD_some] at h4
  unfold loadEnvStep56 loadEnvSpecStep56
  rw [h4, hv, h1, h2, h3]
  simp only [Option.getD_some]

/-- C3: `loadEnv(base, envKey, defaultEnv, testEnvs, override)` processes
files in this exact order: `base`, or `base.dist` when `base` is absent,
raising a path error when neither exists; then, if `process_env[envKey]`
is unset, it is set to `defaultEnv` via `populate`; then `base.local` is
loaded only when the current env is not in `testEnvs`; then, if the env
equals `"local"`, loading stops; otherwise `base.<env>` and then
`base.<env>.local` are loaded, each only when present.  Stated as
refinement: the code cascade (`loadEnv`) agrees with the cascade written
from the spec's wording (`loadEnvSpec`) on the processing trace, the
written names, and the final environment. -/
theorem loadEnv_processing_order (fs : DotenvFs) (e0 : Env)
    (p envKey defaultEnv : String) (testEnvs : List String) (ov : Bool)
    (hk : envKey ≠ SENTINEL_VARS) :
    loadEnv fs e0 p envKey defaultEnv testEnvs ov =
      loadEnvSpec fs e0 p envKey defaultEnv testEnvs ov := by
  have htail : ∀ (e : Env) (ws : List String) (tr : List Event),
      loadEnvTail fs p envKey defaultEnv testEnvs ov e ws tr =
      loadEnvSpecTail fs p envKey defaultEnv testEnvs ov e ws tr := by
    intro e ws tr
    exact loadEnvStep56_rel fs p envKey defaultEnv ov _ _
      (loadEnvStep3_rel fs p envKey defaultEnv testEnvs ov _ _
        (loadEnvStep2_rel envKey defaultEnv ov e ws tr hk))
  unfold loadEnv loadEnvSpec
  cases hfp : fs p with
  | some m => simp only [htail]
  | none =>
    cases hfd : fs (p ++ ".dist") with
    | some m => simp only [htail]
    | none => rfl

/-- Concrete filesystem for the C3 witness: a base file and an
env-specific file exist. -/
def fsWitness : DotenvFs := fun q =>
  if q = "base.env" then some [("FOO", "BAR")]
  else if q = "base.env.dev" then some [("FOO", "DEVBAR")]
  else none

/-- Witness for C3 at a concrete input. -/
theorem loadEnv_processing_order_witness :
    ("TEST_APP_ENV" : String) ≠ SENTINEL_VARS ∧
    loadEnv fsWitness [] "base.env" "TEST_APP_ENV" "dev" ["test"] false =
      loadEnvSpec fsWitness [] "base.env" "TEST_APP_ENV" "dev" ["test"] false :=
  ⟨by decide, loadEnv_processing_order fsWitness [] "base.env" "TEST_APP_ENV"
    "dev" ["test"] false (by decide)⟩

theorem mem_insertUnique_iff (l : List String) (y x : String) :
    x ∈ insertUnique l y ↔ x ∈ l ∨ x = y := by
  unfold insertUnique
  by_cases h : y ∈ l
  · rw [if_pos h]
    constructor
    · exact Or.inl
    · rintro (hx | rfl)
      · exact hx
      · exact h
  · rw [if_neg h]
    simp [List.mem_append]

theorem foldl_insertUnique_mem (l : List String) :
    ∀ (acc : List String) (x : String),
    x ∈ l.foldl insertUnique acc ↔ x ∈ acc ∨ x ∈ l := by
  induction l with
  | nil => intro acc x; simp
  | cons a t ih =>
    intro acc x
    rw [List.foldl_cons, ih, mem_insertUnique_iff]
    simp only [List.mem_cons]
    tauto

theorem mem_dedupFirst (l : List String) (x : String) :
    x ∈ dedupFirst l ↔ x ∈ l := by
  unfold dedupFirst
  rw [foldl_insertUnique_mem]
  simp

theorem splitCommaGo_no_comma (cs : List Char) :
    ∀ (acc : List Char), ',' ∉ cs →
    splitCommaGo acc cs = [String.mk (acc.reverse ++ cs)] := by
  induction cs with
  | nil => intro acc _; simp [splitCommaGo]
  | cons c rest ih =>
    intro acc h
    simp only [List.mem_cons] at h
    push_neg at h
    rw [splitCommaGo, if_neg (fun hc => h.1 hc.symm), ih _ h.2]
    simp

theorem splitCommaGo_comma_split (pre : List Char) :
    ∀ (acc tail : List Char), ',' ∉ pre →
    splitCommaGo acc (pre ++ ',' :: tail) =
      String.mk (acc.reverse ++ pre) :: splitCommaGo [] tail := by
  induction pre with
  | nil => intro acc tail _; simp [splitCommaGo]
  | cons c rest ih =>
    intro acc tail h
    simp only [List.mem_cons] at h
    push_neg at h
    rw [List.cons_append, splitCommaGo, if_neg (fun hc => h.1 hc.symm),
      ih _ _ h.2]
    simp

theorem splitComma_joinComma (lv : List String)
    (h : ∀ x ∈ lv, ',' ∉ x.data) (hne : lv ≠ []) :
    splitComma (joinComma lv) = lv := by
  induction lv with
  | nil => cases hne rfl
  | cons x rest ih =>
    cases rest with
    | nil =>
      show splitCommaGo [] (joinComma [x]).data = [x]
      rw [show joinComma [x] = x from rfl,
        splitCommaGo_no_comma x.data [] (h x (by simp))]
      simp
    | cons y t =>
      show splitCommaGo [] (joinComma (x :: y :: t)).data = x :: y :: t
      have hdata : (joinComma (x :: y :: t)).data =
          x.data ++ ',' :: (joinComma (y :: t)).data := by
        show (x ++ "," ++ joinComma (y :: t)).data = _
        simp
      rw [hdata, splitCommaGo_comma_split x.data [] _ (h x (by simp))]
      have := ih (fun z hz => h z (by simp [hz])) (by simp)
      rw [show splitCommaGo [] (joinComma (y :: t)).data =
        splitComma (joinComma (y :: t)) from rfl, this]
      simp

theorem splitCommaGo_elem_no_comma (cs : List Char) :
    ∀ (acc : List Char), ',' ∉ acc →
    ∀ x ∈ splitCommaGo acc cs, ',' ∉ x.data := by
  induction cs with
  | nil =>
    intro acc hacc x hx
    simp only [splitCommaGo, List.mem_singleton] at hx
    subst hx
    simpa using hacc
  | cons c rest ih =>
    intro acc hacc x hx
    by_cases hc : c = ','
    · subst hc
      rw [splitCommaGo, if_pos rfl] at hx
      rcases List.mem_cons.mp hx with rfl | hx'
      · simpa using hacc
      · exact ih [] (by simp) x hx'
    · rw [splitCommaGo, if_neg hc] at hx
      refine ih (c :: acc) ?_ x hx
      simp only [List.mem_cons]
      push_neg
      exact ⟨fun hcc => hc hcc.symm, hacc⟩

theorem dropWhile_head_not (p : Char → Bool) (l : List Char) :
    List.dropWhile p l = [] ∨
    ∃ a t, List.dropWhile p l = a :: t ∧ p a = false := by
  induction l with
  | nil => exact Or.inl rfl
  | cons c rest ih =>
    by_cases h : p c = true
    · rw [List.dropWhile_cons, if_pos h]
      exact ih
    · right
      exact ⟨c, rest, by rw [List.dropWhile_cons, if_neg h],
        Bool.not_eq_true _ ▸ h⟩

theorem dropWhile_idem (p : Char → Bool) (l : List Char) :
    List.dropWhile p (List.dropWhile p l) = List.dropWhile p l := by
  rcases dropWhile_head_not p l with h | ⟨a, t, h, hpa⟩
  · rw [h]; rfl
  · rw [h, List.dropWhile_cons, if_neg (by simp [hpa])]

/-- The list produced by `trimJs` on char level. -/
theorem trimList_spec (p : Char → Bool) (l : List Char) :
    List.dropWhile p
        (((List.dropWhile p l).reverse.dropWhile p).reverse) =
      ((List.dropWhile p l).reverse.dropWhile p).reverse := by
  set l1 := List.dropWhile p l with hl1
  set r := l1.reverse.dropWhile p with hr
  have hpre : r.reverse <+: l1 := by
    have hsuf : r <:+ l1.reverse := by rw [hr]; exact List.dropWhile_suffix p
    have := List.reverse_prefix.mpr hsuf
    simpa using this
  rcases dropWhile_head_not p l with hnil | ⟨a, t, hat, hpa⟩
  · rw [← hl1] at hnil
    have hre : r = [] := by rw [hr, hnil]; rfl
    rw [hre]
    rfl
  · rw [← hl1] at hat
    cases hrev : r.reverse with
    | nil => rfl
    | cons b t' =>
      have hb : b = a := by
        obtain ⟨rest', hrest⟩ := hpre
        rw [hrev] at hrest
        rw [hat] at hrest
        exact (List.cons.injEq _ _ _ _ ▸ hrest).1
      rw [List.dropWhile_cons, if_neg (by simp [hb, hpa])]

theorem trimList_idem (p : Char → Bool) (l : List Char) :
    (((((l.dropWhile p).reverse.dropWhile p).reverse.dropWhile
        p).reverse.dropWhile p)).reverse =
      ((l.dropWhile p).reverse.dropWhile p).reverse := by
  rw [trimList_spec p l, List.reverse_reverse, dropWhile_idem]

theorem trimJs_idem (s : String) : trimJs (trimJs s) = trimJs s := by
  unfold trimJs
  congr 1
  exact trimList_idem isJsSpace s.data

theorem trimJs_mem_subset (s : String) (c : Char) (h : c ∈ (trimJs s).data) :
    c ∈ s.data := by
  unfold trimJs at h
  have h1 : c ∈ ((s.data.dropWhile isJsSpace).reverse.dropWhile
      isJsSpace).reverse := h
  rw [List.mem_reverse] at h1
  have h2 := (List.dropWhile_suffix isJsSpace).subset h1
  rw [List.mem_reverse] at h2
  exact (List.dropWhile_suffix isJsSpace).subset h2

theorem sentinelSet_valid (e : Env) : ∀ x ∈ sentinelSet e, ValidName x := by
  intro x hx
  unfold sentinelSet at hx
  rw [mem_dedupFirst] at hx
  rw [List.mem_filter] at hx
  obtain ⟨hmap, hne⟩ := hx
  obtain ⟨y, hy, rfl⟩ := List.mem_map.mp hmap
  refine ⟨by simpa using hne, trimJs_idem y, fun hc => ?_⟩
  have hyc : ',' ∈ y.data := trimJs_mem_subset y ',' hc
  exact splitCommaGo_elem_no_comma _ [] (by simp) y hy hyc

theorem populateGo_lv_prefix (ov : Bool) (vs : List (String × String)) :
    ∀ (e : Env) (lv : List String) (upd : Bool),
    ∃ t, (populateGo ov e lv upd vs).2.1 = lv ++ t := by
  induction vs with
  | nil => intro e lv upd; exact ⟨[], by simp [populateGo]⟩
  | cons hd rest ih =>
    intro e lv upd
    obtain ⟨name, value⟩ := hd
    by_cases hc : ¬ lv.contains name ∧ ¬ ov ∧ (lookupEnv e name).isSome
    · simpa only [populateGo, if_pos hc] using ih e lv upd
    · simp only [populateGo, if_neg hc]
      by_cases hn : lv.contains name = true
      · rw [if_pos hn]
        exact ih _ _ _
      · rw [if_neg hn]
        obtain ⟨t, ht⟩ := ih (envSet e name value) (lv ++ [name])
          (if lv.contains name = true then upd else true)
        exact ⟨[name] ++ t, by rw [ht, List.append_assoc]⟩

theorem populateGo_upd_mono (ov : Bool) (vs : List (String × String)) :
    ∀ (e : Env) (lv : List String),
    (populateGo ov e lv true vs).2.2.1 = true := by
  induction vs with
  | nil => intro e lv; rfl
  | cons hd rest ih =>
    intro e lv
    obtain ⟨name, value⟩ := hd
    by_cases hc : ¬ lv.contains name ∧ ¬ ov ∧ (lookupEnv e name).isSome
    · simp only [populateGo, if_pos hc]
      exact ih e lv
    · simp only [populateGo, if_neg hc]
      by_cases hn : lv.contains name = true
      · rw [if_pos hn, if_pos hn]
        exact ih _ _
      · rw [if_neg hn, if_neg hn]
        exact ih _ _

theorem populateGo_writes_subset (ov : Bool) (vs : List (String × String)) :
    ∀ (e : Env) (lv : List String),
    (populateGo ov e lv false vs).2.2.1 = false →
    ∀ x ∈ (populateGo ov e lv false vs).2.2.2, x ∈ lv := by
  induction vs with
  | nil => intro e lv _ x hx; simp [populateGo] at hx
  | cons hd rest ih =>
    intro e lv hupd x hx
    obtain ⟨name, value⟩ := hd
    by_cases hc : ¬ lv.contains name ∧ ¬ ov ∧ (lookupEnv e name).isSome
    · rw [show populateGo ov e lv false ((name, value) :: rest) =
        populateGo ov e lv false rest from by
          simp only [populateGo, if_pos hc]] at hupd hx
      exact ih e lv hupd x hx
    · by_cases hn : lv.contains name = true
      · simp only [populateGo, if_neg hc, if_pos hn] at hupd hx
        rcases List.mem_cons.mp hx with rfl | hx'
        · exact List.mem_of_elem_eq_true hn
        · exact ih _ lv hupd x hx'
      · exfalso
        simp only [populateGo, if_neg hc, if_neg hn] at hupd
        rw [populateGo_upd_mono] at hupd
        exact Bool.true_eq_false ▸ hupd

theorem populateGo_lv_mem (ov : Bool) (vs : List (String × String)) :
    ∀ (e : Env) (lv : List String) (upd : Bool) (x : String),
    x ∈ (populateGo ov e lv upd vs).2.1 ↔
      x ∈ lv ∨ x ∈ (populateGo ov e lv upd vs).2.2.2 := by
  induction vs with
  | nil => intro e lv upd x; simp [populateGo]
  | cons hd rest ih =>
    intro e lv upd x
    obtain ⟨name, value⟩ := hd
    by_cases hc : ¬ lv.contains name ∧ ¬ ov ∧ (lookupEnv e name).isSome
    · simp only [populateGo, if_pos hc]
      exact ih e lv upd x
    · simp only [populateGo, if_neg hc]
      by_cases hn : lv.contains name = true
      · rw [if_pos hn, if_pos hn]
        have hmemn : name ∈ lv := List.mem_of_elem_eq_true hn
        rw [ih]
        simp only [List.mem_cons]
        constructor
        · rintro (h | h)
          · exact Or.inl h
          · exact Or.inr (Or.inr h)
        · rintro (h | rfl | h)
          · exact Or.inl h
          · exact Or.inl hmemn
          · exact Or.inr h
      · rw [if_neg hn, if_neg hn]
        rw [ih]
        simp only [List.mem_append, List.mem_singleton, List.mem_cons]
        tauto

theorem populateGo_writes_keys (ov : Bool) (vs : List (String × String)) :
    ∀ (e : Env) (lv : List String) (upd : Bool),
    ∀ x ∈ (populateGo ov e lv upd vs).2.2.2, x ∈ vs.map Prod.fst := by
  induction vs with
  | nil => intro e lv upd x hx; simp [populateGo] at hx
  | cons hd rest ih =>
    intro e lv upd x hx
    obtain ⟨name, value⟩ := hd
    simp only [List.map_cons, List.mem_cons]
    by_cases hc : ¬ lv.contains name ∧ ¬ ov ∧ (lookupEnv e name).isSome
    · simp only [populateGo, if_pos hc] at hx
      exact Or.inr (ih e lv upd x hx)
    · simp only [populateGo, if_neg hc] at hx
      rcases List.mem_cons.mp hx with rfl | hx'
      · exact Or.inl rfl
      · exact Or.inr (ih _ _ _ x hx')

theorem populateGo_upd_true_ne_nil (ov : Bool) (vs : List (String × String)) :
    ∀ (e : Env) (lv : List String),
    (populateGo ov e lv false vs).2.2.1 = true →
    (populateGo ov e lv false vs).2.1 ≠ [] := by
  induction vs with
  | nil => intro e lv h; simp [populateGo] at h
  | cons hd rest ih =>
    intro e lv h
    obtain ⟨name, value⟩ := hd
    by_cases hc : ¬ lv.contains name ∧ ¬ ov ∧ (lookupEnv e name).isSome
    · simp only [populateGo, if_pos hc] at h ⊢
      exact ih e lv h
    · simp only [populateGo, if_neg hc] at h ⊢
      by_cases hn : lv.contains name = true
      · simp only [hn, if_true] at h ⊢
        obtain ⟨t, ht⟩ := populateGo_lv_prefix ov rest (envSet e name value)
          lv false
        rw [ht]
        have : lv ≠ [] := by
          intro hlv
          rw [hlv] at hn
          simp [List.contains] at hn
        intro happ
        exact this (List.append_eq_nil.mp happ).1
      · simp only [hn, Bool.false_eq_true, if_false] at h ⊢
        obtain ⟨t, ht⟩ := populateGo_lv_prefix ov rest (envSet e name value)
          (lv ++ [name]) true
        rw [ht]
        intro happ
        have := (List.append_eq_nil.mp happ).1
        exact absurd (List.append_eq_nil.mp this).2 (by simp)

theorem sentinelSet_congr (e1 e2 : Env)
    (h : lookupEnv e1 SENTINEL_VARS = lookupEnv e2 SENTINEL_VARS) :
    sentinelSet e1 = sentinelSet e2 := by
  unfold sentinelSet
  rw [h]

theorem sentinelSet_envSet_other (e : Env) (k v : String)
    (hk : k ≠ SENTINEL_VARS) :
    sentinelSet (envSet e k v) = sentinelSet e :=
  sentinelSet_congr _ _ (lookupEnv_envSet_other _ _ _ _ hk)

theorem sentinelSet_joined (e' : Env) (lv : List String)
    (hvalid : ∀ x ∈ lv, ValidName x) (hne : lv ≠ []) :
    sentinelSet (envSet e' SENTINEL_VARS (joinComma lv)) = dedupFirst lv := by
  unfold sentinelSet
  rw [lookupEnv_envSet_self]
  rw [show (some (joinComma lv)).getD "" = joinComma lv from rfl]
  rw [splitComma_joinComma lv (fun x hx => (hvalid x hx).2.2) hne]
  have hmap : lv.map trimJs = lv := by
    conv_rhs => rw [← List.map_id lv]
    exact List.map_congr_left (fun x hx => (hvalid x hx).2.1)
  rw [hmap]
  rw [List.filter_eq_self.mpr (fun x hx => by
    simpa using (hvalid x hx).1)]

theorem populate_sentinelSet (e : Env) (vs : List (String × String))
    (ov : Bool) (hs : SENTINEL_VARS ∉ vs.map Prod.fst)
    (hv : ∀ x ∈ vs.map Prod.fst, ValidName x) :
    ∀ x, x ∈ sentinelSet (populate e vs ov).1 ↔
      (x ∈ sentinelSet e ∨ x ∈ (populate e vs ov).2) := by
  intro x
  simp only [populate]
  by_cases hupd : (populateGo ov e (sentinelSet e) false vs).2.2.1 = true
  · rw [if_pos hupd]
    have hval_lv : ∀ y ∈ (populateGo ov e (sentinelSet e) false vs).2.1,
        ValidName y := by
      intro y hy
      rw [populateGo_lv_mem] at hy
      rcases hy with hy | hy
      · exact sentinelSet_valid e y hy
      · exact hv y (populateGo_writes_keys ov vs e (sentinelSet e) false y hy)
    have hne := populateGo_upd_true_ne_nil ov vs e (sentinelSet e) hupd
    rw [sentinelSet_joined _ _ hval_lv hne, mem_dedupFirst,
      populateGo_lv_mem]
  · rw [if_neg hupd]
    have hlook : lookupEnv (populateGo ov e (sentinelSet e) false vs).1
        SENTINEL_VARS = lookupEnv e SENTINEL_VARS :=
      populateGo_lookup_notin ov vs e (sentinelSet e) false SENTINEL_VARS hs
    have hss : sentinelSet (populateGo ov e (sentinelSet e) false vs).1 =
        sentinelSet e := sentinelSet_congr _ _ hlook
    rw [hss]
    have hsub := populateGo_writes_subset ov vs e (sentinelSet e)
      (by simpa using hupd)
    constructor
    · exact Or.inl
    · rintro (h | h)
      · exact h
      · exact hsub x h

theorem sentinelUnion_populate (e0 e : Env) (ws : List String)
    (m : List (String × String)) (ov : Bool)
    (h : SentinelUnion e0 e ws)
    (hs : SENTINEL_VARS ∉ m.map Prod.fst)
    (hv : ∀ x ∈ m.map Prod.fst, ValidName x) :
    SentinelUnion e0 (populate e m ov).1 (ws ++ (populate e m ov).2) := by
  intro x
  rw [populate_sentinelSet e m ov hs hv x, h x, List.mem_append]
  tauto

theorem sentinelUnion_step2 (envKey defaultEnv : String) (ov : Bool)
    (e : Env) (ws : List String) (tr : List Event) (e0 : Env)
    (hk : envKey ≠ SENTINEL_VARS) (hkv : ValidName envKey)
    (h : SentinelUnion e0 e ws) :
    SentinelUnion e0 (loadEnvStep2 envKey defaultEnv ov e ws tr).1
      (loadEnvStep2 envKey defaultEnv ov e ws tr).2.1 := by
  unfold loadEnvStep2
  cases hl : lookupEnv e envKey with
  | some v => exact h
  | none =>
    exact sentinelUnion_populate e0 e ws [(envKey, defaultEnv)] ov h
      (by simpa using Ne.symm hk) (by simpa using hkv)

theorem sentinelUnion_step3 (fs : DotenvFs) (p envKey : String)
    (testEnvs : List String) (ov : Bool)
    (s : Env × List String × List Event × String) (e0 : Env)
    (hfs : FsOk fs) (h : SentinelUnion e0 s.1 s.2.1) :
    SentinelUnion e0 (loadEnvStep3 fs p envKey testEnvs ov s).1
      (loadEnvStep3 fs p envKey testEnvs ov s).2.1 := by
  unfold loadEnvStep3
  by_cases ht : testEnvs.contains s.2.2.2
  · rwa [if_pos ht]
  · rw [if_neg ht]
    cases hf : fs (p ++ ".local") with
    | none => exact h
    | some m =>
      obtain ⟨hs, hv⟩ := hfs _ _ hf
      exact sentinelUnion_populate e0 s.1 s.2.1 m ov h hs hv

theorem sentinelUnion_step56 (fs : DotenvFs) (p : String) (ov : Bool)
    (s : Env × List String × List Event × String) (e0 : Env)
    (hfs : FsOk fs) (h : SentinelUnion e0 s.1 s.2.1) :
    SentinelUnion e0 (loadEnvStep56 fs p ov s).1
      (loadEnvStep56 fs p ov s).2.1 := by
  unfold loadEnvStep56
  by_cases hl : s.2.2.2 = "local"
  · rwa [if_pos hl]
  · rw [if_neg hl]
    have h4 : ∀ (s4 : Env × List String × List Event),
        SentinelUnion e0 s4.1 s4.2.1 →
        SentinelUnion e0
          (match fs (p ++ "." ++ s.2.2.2 ++ ".local") with
            | some m =>
              ((populate s4.1 m ov).1, s4.2.1 ++ (populate s4.1 m ov).2,
                s4.2.2 ++ [Event.file (p ++ "." ++ s.2.2.2 ++ ".local")])
            | none => s4).1
          (match fs (p ++ "." ++ s.2.2.2 ++ ".local") with
            | some m =>
              ((populate s4.1 m ov).1, s4.2.1 ++ (populate s4.1 m ov).2,
                s4.2.2 ++ [Event.file (p ++ "." ++ s.2.2.2 ++ ".local")])
            | none => s4).2.1 := by
      intro s4 h4
      cases hf : fs (p ++ "." ++ s.2.2.2 ++ ".local") with
      | none => exact h4
      | some m =>
        obtain ⟨hs, hv⟩ := hfs _ _ hf
        exact sentinelUnion_populate e0 s4.1 s4.2.1 m ov h4 hs hv
    cases hf : fs (p ++ "." ++ s.2.2.2) with
    | none => exact h4 _ h
    | some m =>
      obtain ⟨hs, hv⟩ := hfs _ _ hf
      exact h4 _ (sentinelUnion_populate e0 s.1 s.2.1 m ov h hs hv)

/-- C9 (amended): after `loadEnv` completes, the `NODE_DOTENV_VARS`
sentinel set contains every key actually written by that cascade, together
with every key already present in the sentinel before the cascade (for
instance keys written by prior cascades of the same process): the final
sentinel set is exactly the union of the prior sentinel set and the keys
written. -/
theorem loadEnv_sentinel_tracks (fs : DotenvFs) (e0 : Env)
    (p envKey defaultEnv : String) (testEnvs : List String) (ov : Bool)
    (res : LoadResult)
    (hfs : FsOk fs) (hk : envKey ≠ SENTINEL_VARS) (hkv : ValidName envKey)
    (h : loadEnv fs e0 p envKey defaultEnv testEnvs ov = .ok res) :
    ∀ x, x ∈ sentinelSet res.1 ↔ (x ∈ sentinelSet e0 ∨ x ∈ res.2.1) := by
  have hstart : sentinelSet (envSet e0 SENTINEL_PATH p) = sentinelSet e0 :=
    sentinelSet_envSet_other e0 SENTINEL_PATH p (by decide)
  have hbase : ∀ (m : List (String × String)),
      SENTINEL_VARS ∉ m.map Prod.fst →
      (∀ x ∈ m.map Prod.fst, ValidName x) →
      SentinelUnion e0 (populate (envSet e0 SENTINEL_PATH p) m ov).1
        (populate (envSet e0 SENTINEL_PATH p) m ov).2 := by
    intro m hs hv
    have h0 : SentinelUnion e0 (envSet e0 SENTINEL_PATH p) [] := by
      intro x
      rw [hstart]
      simp
    have := sentinelUnion_populate e0 (envSet e0 SENTINEL_PATH p) [] m ov
      h0 hs hv
    simpa using this
  have htail : ∀ (e : Env) (ws : List String) (tr : List Event),
      SentinelUnion e0 e ws →
      SentinelUnion e0
        (loadEnvTail fs p envKey defaultEnv testEnvs ov e ws tr).1
        (loadEnvTail fs p envKey defaultEnv testEnvs ov e ws tr).2.1 := by
    intro e ws tr hu
    exact sentinelUnion_step56 fs p ov _ e0 hfs
      (sentinelUnion_step3 fs p envKey testEnvs ov _ e0 hfs
        (sentinelUnion_step2 envKey defaultEnv ov e ws tr e0 hk hkv hu))
  unfold loadEnv at h
  cases hfp : fs p with
  | some m =>
    rw [hfp] at h
    obtain ⟨hs, hv⟩ := hfs _ _ hfp
    have := htail _ _ [Event.file p] (hbase m hs hv)
    rw [show res = loadEnvTail fs p envKey defaultEnv testEnvs ov
      (populate (envSet e0 SENTINEL_PATH p) m ov).1
      (populate (envSet e0 SENTINEL_PATH p) m ov).2 [Event.file p] from by
        injection h.symm]
    exact this
  | none =>
    rw [hfp] at h
    cases hfd : fs (p ++ ".dist") with
    | some m =>
      rw [hfd] at h
      obtain ⟨hs, hv⟩ := hfs _ _ hfd
      have := htail _ _ [Event.file (p ++ ".dist")] (hbase m hs hv)
      rw [show res = loadEnvTail fs p envKey defaultEnv testEnvs ov
        (populate (envSet e0 SENTINEL_PATH p) m ov).1
        (populate (envSet e0 SENTINEL_PATH p) m ov).2
        [Event.file (p ++ ".dist")] from by injection h.symm]
      exact this
    | none =>
      rw [hfd] at h
      cases h

theorem fsWitness_ok : FsOk fsWitness := by
  intro q m h
  unfold fsWitness at h
  by_cases h1 : q = "base.env"
  · rw [if_pos h1] at h
    injection h with h'
    subst h'
    exact ⟨by decide, by decide⟩
  · rw [if_neg h1] at h
    by_cases h2 : q = "base.env.dev"
    · rw [if_pos h2] at h
      injection h with h'
      subst h'
      exact ⟨by decide, by decide⟩
    · rw [if_neg h2] at h
      cases h

/-- Witness for C9's amended statement at a concrete input. -/
theorem loadEnv_sentinel_tracks_witness :
    loadEnv fsWitness [] "base.env" "TEST_APP_ENV" "dev" ["test"] false =
      .ok ([("NODE_DOTENV_PATH", "base.env"), ("FOO", "DEVBAR"),
        ("NODE_DOTENV_VARS", "FOO,TEST_APP_ENV"), ("TEST_APP_ENV", "dev")],
        ["FOO", "TEST_APP_ENV", "FOO"],
        [Event.file "base.env", Event.setDefault "TEST_APP_ENV" "dev",
          Event.file "base.env.dev"]) ∧
    ("FOO" ∈ sentinelSet ([("NODE_DOTENV_PATH", "base.env"),
        ("FOO", "DEVBAR"), ("NODE_DOTENV_VARS", "FOO,TEST_APP_ENV"),
        ("TEST_APP_ENV", "dev")] : Env) ↔
      ("FOO" ∈ sentinelSet ([] : Env) ∨
        "FOO" ∈ (["FOO", "TEST_APP_ENV", "FOO"] : List String))) := by
  refine ⟨by decide, ?_⟩
  have := loadEnv_sentinel_tracks fsWitness [] "base.env" "TEST_APP_ENV"
    "dev" ["test"] false
    ([("NODE_DOTENV_PATH", "base.env"), ("FOO", "DEVBAR"),
      ("NODE_DOTENV_VARS", "FOO,TEST_APP_ENV"), ("TEST_APP_ENV", "dev")],
      ["FOO", "TEST_APP_ENV", "FOO"],
      [Event.file "base.env", Event.setDefault "TEST_APP_ENV" "dev",
        Event.file "base.env.dev"])
    fsWitness_ok (by decide) (by decide) (by decide) "FOO"
  exact this

/-- Counterexample for C9 as stated: a prior cascade (a `populate` call)
wrote `APP_ENV` and recorded it in the sentinel; a fresh `loadEnv` cascade
then writes only `FOO` and `TEST_APP_ENV`, yet the sentinel after the
cascade still contains `APP_ENV` — a key written by a prior cascade of the
same process, not by this cascade. -/
theorem loadEnv_sentinel_counterexample :
    (populate [] [("APP_ENV", "dev")] false).2 = ["APP_ENV"] ∧
    loadEnv fsC9 (populate [] [("APP_ENV", "dev")] false).1 "b"
      "TEST_APP_ENV" "dev" ["test"] false =
      .ok ([("APP_ENV", "dev"),
        ("NODE_DOTENV_VARS", "APP_ENV,FOO,TEST_APP_ENV"),
        ("NODE_DOTENV_PATH", "b"), ("FOO", "BAR"), ("TEST_APP_ENV", "dev")],
        ["FOO", "TEST_APP_ENV"],
        [Event.file "b", Event.setDefault "TEST_APP_ENV" "dev"]) ∧
    "APP_ENV" ∈ sentinelSet ([("APP_ENV", "dev"),
      ("NODE_DOTENV_VARS", "APP_ENV,FOO,TEST_APP_ENV"),
      ("NODE_DOTENV_PATH", "b"), ("FOO", "BAR"),
      ("TEST_APP_ENV", "dev")] : Env) ∧
    "APP_ENV" ∉ (["FOO", "TEST_APP_ENV"] : List String) := by
  refine ⟨by decide, by decide, by decide, by decide⟩

mutual

theorem cloneValue_id : (t : Tree) → cloneValue t = t
  | .null => rfl
  | .bool _ => rfl
  | .num _ => rfl
  | .str _ => rfl
  | .arr items => congrArg Tree.arr (cloneList_id items)
  | .obj es => congrArg Tree.obj (cloneEntries_id es)

theorem cloneList_id : (ts : List Tree) → cloneList ts = ts
  | [] => rfl
  | t :: ts => by rw [cloneList, cloneValue_id, cloneList_id ts]

theorem cloneEntries_id : (es : List (String × Tree)) → cloneEntries es = es
  | [] => rfl
  | (k, v) :: es => by rw [cloneEntries, cloneValue_id, cloneEntries_id es]

end

theorem treeGet_objSet_self (m : List (String × Tree)) (k : String)
    (v : Tree) : treeGet (objSet m k v) k = some v := by
  induction m with
  | nil => simp [objSet, treeGet]
  | cons hd tl ih =>
    obtain ⟨k', v'⟩ := hd
    by_cases h : k' = k <;> simp [objSet, treeGet, h, ih]

theorem treeGet_objSet_other (m : List (String × Tree)) (k' k : String)
    (v : Tree) (h : k' ≠ k) :
    treeGet (objSet m k' v) k = treeGet m k := by
  induction m with
  | nil => simp [objSet, treeGet, h]
  | cons hd tl ih =>
    obtain ⟨k'', v''⟩ := hd
    by_cases h2 : k'' = k' <;> simp [objSet, treeGet, h2, h, ih]

theorem treeGet_cloneEntries (b : List (String × Tree)) (k : String) :
    treeGet (cloneEntries b) k = (treeGet b k).map cloneValue := by
  induction b with
  | nil => simp [cloneEntries, treeGet]
  | cons hd tl ih =>
    obtain ⟨k', v⟩ := hd
    by_cases h : k' = k <;> simp [cloneEntries, treeGet, h, ih]

theorem mem_keys_of_treeGet_some (es : List (String × Tree)) (k : String)
    (w : Tree) (h : treeGet es k = some w) : k ∈ es.map Prod.fst := by
  induction es with
  | nil => simp [treeGet] at h
  | cons hd tl ih =>
    obtain ⟨k2, v2⟩ := hd
    by_cases h2 : k2 = k
    · subst h2; simp
    · simp only [treeGet, if_neg h2] at h
      simp only [List.map_cons, List.mem_cons]
      exact Or.inr (ih h)

theorem treeGet_eq_none_of_not_mem (es : List (String × Tree)) (k : String)
    (h : k ∉ es.map Prod.fst) : treeGet es k = none := by
  cases hr : treeGet es k with
  | none => rfl
  | some w => exact absurd (mem_keys_of_treeGet_some es k w hr) h

theorem treeGet_mergeNext (b : List (String × Tree)) :
    ∀ (n : List (String × Tree)), (n.map Prod.fst).Nodup →
    ∀ (acc : List (String × Tree)) (k : String),
    treeGet (mergeNext acc b n) k =
      match treeGet n k with
      | some nv =>
        some (match treeGet b k with
          | some bv => mergeTrees bv nv
          | none => cloneValue nv)
      | none => treeGet acc k := by
  intro n
  induction n with
  | nil => intro _ acc k; simp [mergeNext, treeGet]
  | cons hd rest ih =>
    intro hnodup acc k
    obtain ⟨k', v⟩ := hd
    simp only [List.map_cons, List.nodup_cons] at hnodup
    obtain ⟨hknotin, hnodup'⟩ := hnodup
    by_cases hk : k' = k
    · subst hk
      have hrest : treeGet rest k' = none := by
        cases hr : treeGet rest k' with
        | none => rfl
        | some w => exact absurd (mem_keys_of_treeGet_some rest k' w hr) hknotin
      cases hb : treeGet b k' with
      | some bv =>
        simp only [mergeNext, hb]
        rw [ih hnodup' _ k', hrest, treeGet_objSet_self]
        simp [treeGet]
      | none =>
        simp only [mergeNext, hb]
        rw [ih hnodup' _ k', hrest, treeGet_objSet_self]
        simp [treeGet]
    · cases hb : treeGet b k' with
      | some bv =>
        simp only [mergeNext, hb]
        rw [ih hnodup' _ k, treeGet_objSet_other _ _ _ _ hk]
        simp [treeGet, hk]
      | none =>
        simp only [mergeNext, hb]
        rw [ih hnodup' _ k, treeGet_objSet_other _ _ _ _ hk]
        simp [treeGet, hk]

/-- C7: `merge(base, next)` shape rules: two arrays — the result is a
clone of `next` (replacement, not concatenation); two plain objects —
the result holds clones of base-only keys, recursive merges of shared
keys, and clones of next-only keys; in every other case where `next` is
present, the result is a clone of `next`. -/
theorem mergeValues_shape_rules :
    (∀ (a b : List Tree),
      mergeTrees (.arr a) (.arr b) = cloneValue (.arr b)) ∧
    (∀ (b n : List (String × Tree)),
      mergeTrees (.obj b) (.obj n) = .obj (mergeObjEntries b n)) ∧
    (∀ (b n : List (String × Tree)), (n.map Prod.fst).Nodup →
      ∀ k, treeGet (mergeObjEntries b n) k =
        match treeGet b k, treeGet n k with
        | some bv, some nv => some (mergeTrees bv nv)
        | some bv, none => some (cloneValue bv)
        | none, some nv => some (cloneValue nv)
        | none, none => none) ∧
    (∀ (t1 t2 : Tree), ¬(t1.isArr = true ∧ t2.isArr = true) →
      ¬(t1.isObj = true ∧ t2.isObj = true) →
      mergeTrees t1 t2 = cloneValue t2) := by
  refine ⟨fun a b => by simp [mergeTrees, cloneValue], fun b n => by
    simp [mergeTrees, mergeObjEntries], fun b n hn k => ?_, fun t1 t2 h1 h2 => ?_⟩
  · unfold mergeObjEntries
    rw [treeGet_mergeNext b n hn _ k, treeGet_cloneEntries]
    cases hb : treeGet b k <;> cases hnk : treeGet n k <;> simp
  · cases t1 <;> cases t2 <;>
      first
        | (exact absurd (And.intro rfl rfl) h1)
        | (exact absurd (And.intro rfl rfl) h2)
        | simp [mergeTrees, cloneValue]

/-- Witness for C7 at concrete inputs: arrays replace; shared keys merge
recursively; base-only and next-only keys clone through; mismatched
shapes take `next`. -/
theorem mergeValues_shape_rules_witness :
    mergeTrees (.arr [Tree.num (some 1)]) (.arr [Tree.num (some 2)]) =
      cloneValue (.arr [Tree.num (some 2)]) ∧
    ((["a", "d"] : List String).Nodup ∧
      treeGet (mergeObjEntries
        [("a", Tree.num (some 1)), ("c", Tree.str "x")]
        [("a", Tree.num (some 2)), ("d", Tree.null)]) "a" =
        some (Tree.num (some 2)) ∧
      treeGet (mergeObjEntries
        [("a", Tree.num (some 1)), ("c", Tree.str "x")]
        [("a", Tree.num (some 2)), ("d", Tree.null)]) "c" =
        some (Tree.str "x")) ∧
    mergeTrees (.arr [Tree.null]) (.str "s") = cloneValue (.str "s") := by
  refine ⟨mergeValues_shape_rules.1 [Tree.num (some 1)] [Tree.num (some 2)],
    ⟨by decide, ?_, ?_⟩,
    mergeValues_shape_rules.2.2.2 (.arr [Tree.null]) (.str "s")
      (by simp [Tree.isArr]) (by simp [Tree.isObj])⟩
  · rw [mergeValues_shape_rules.2.2.1
      [("a", Tree.num (some 1)), ("c", Tree.str "x")]
      [("a", Tree.num (some 2)), ("d", Tree.null)]
      (by decide) "a"]
    simp [treeGet, mergeTrees, cloneValue]
  · rw [mergeValues_shape_rules.2.2.1
      [("a", Tree.num (some 1)), ("c", Tree.str "x")]
      [("a", Tree.num (some 2)), ("d", Tree.null)]
      (by decide) "c"]
    simp [treeGet, cloneValue]

theorem objSet_append_fresh (acc : List (String × Tree)) (k : String)
    (v : Tree) (h : treeGet acc k = none) : objSet acc k v = acc ++ [(k, v)] := by
  induction acc with
  | nil => rfl
  | cons hd tl ih =>
    obtain ⟨k', v'⟩ := hd
    by_cases h2 : k' = k
    · simp [treeGet, h2] at h
    · simp only [treeGet, if_neg h2] at h
      simp [objSet, h2, ih h]

theorem treeGet_append_none (l1 l2 : List (String × Tree)) (k : String)
    (h : treeGet l1 k = none) : treeGet (l1 ++ l2) k = treeGet l2 k := by
  induction l1 with
  | nil => rfl
  | cons hd tl ih =>
    obtain ⟨k', v'⟩ := hd
    by_cases h2 : k' = k
    · simp [treeGet, h2] at h
    · simp only [treeGet, if_neg h2] at h
      simp only [List.cons_append, treeGet, if_neg h2]
      exact ih h

theorem mergeNext_disjoint (n : List (String × Tree)) :
    ∀ (acc b : List (String × Tree)), (n.map Prod.fst).Nodup →
    (∀ k ∈ n.map Prod.fst, treeGet b k = none) →
    (∀ k ∈ n.map Prod.fst, treeGet acc k = none) →
    mergeNext acc b n = acc ++ cloneEntries n := by
  induction n with
  | nil => intro acc b _ _ _; simp [mergeNext, cloneEntries]
  | cons hd rest ih =>
    intro acc b hnodup hb hacc
    obtain ⟨k, v⟩ := hd
    simp only [List.map_cons, List.nodup_cons] at hnodup
    obtain ⟨hknotin, hnodup'⟩ := hnodup
    have hbk : treeGet b k = none := hb k (by simp)
    simp only [mergeNext, hbk]
    rw [objSet_append_fresh acc k (cloneValue v) (hacc k (by simp))]
    rw [ih (acc ++ [(k, cloneValue v)]) b hnodup'
      (fun k' hk' => hb k' (by simp [hk']))
      (fun k' hk' => by
        have hne : k ≠ k' := fun he => hknotin (he ▸ hk')
        rw [treeGet_append_none _ _ _ (hacc k' (by simp [hk']))]
        simp [treeGet, hne])]
    simp [cloneEntries]

theorem mergeObjEntries_disjoint (ea eb : List (String × Tree))
    (hnodupb : (eb.map Prod.fst).Nodup)
    (hdisj : ∀ k ∈ eb.map Prod.fst, k ∉ ea.map Prod.fst) :
    mergeObjEntries ea eb = ea ++ eb := by
  unfold mergeObjEntries
  rw [mergeNext_disjoint eb (cloneEntries ea) ea hnodupb
    (fun k hk => treeGet_eq_none_of_not_mem _ _ (hdisj k hk))
    (fun k hk => by
      rw [treeGet_cloneEntries,
        treeGet_eq_none_of_not_mem _ _ (hdisj k hk)]
      rfl)]
  rw [cloneEntries_id ea, cloneEntries_id eb]

/-- C8: for every tree, `merge(tree, absent) = clone(tree)` and
`merge(absent, tree) = clone(tree)`; and merge is associative on plain
objects whose key sets are pairwise disjoint. -/
theorem mergeValues_identity_assoc :
    (∀ t : Tree, mergeValues (some t) none = some (cloneValue t)) ∧
    (∀ t : Tree, mergeValues none (some t) = some (cloneValue t)) ∧
    (∀ ea eb ec : List (String × Tree),
      (eb.map Prod.fst).Nodup → (ec.map Prod.fst).Nodup →
      (∀ k ∈ objKeys ea, k ∉ objKeys eb) →
      (∀ k ∈ objKeys ea, k ∉ objKeys ec) →
      (∀ k ∈ objKeys eb, k ∉ objKeys ec) →
      mergeValues (mergeValues (some (.obj ea)) (some (.obj eb)))
          (some (.obj ec)) =
        mergeValues (some (.obj ea))
          (mergeValues (some (.obj eb)) (some (.obj ec)))) := by
  refine ⟨fun t => rfl, fun t => rfl, fun ea eb ec hb hc dab dac dbc => ?_⟩
  have h1 : mergeObjEntries ea eb = ea ++ eb :=
    mergeObjEntries_disjoint ea eb hb (fun k hk hka => dab k hka hk)
  have h3 : mergeObjEntries eb ec = eb ++ ec :=
    mergeObjEntries_disjoint eb ec hc (fun k hk hkb => dbc k hkb hk)
  have h2 : mergeObjEntries (ea ++ eb) ec = (ea ++ eb) ++ ec := by
    refine mergeObjEntries_disjoint (ea ++ eb) ec hc (fun k hk => ?_)
    intro hmem
    rw [show (ea ++ eb).map Prod.fst = objKeys ea ++ objKeys eb from
      List.map_append _ _ _] at hmem
    rcases List.mem_append.mp hmem with hm | hm
    · exact dac k hm hk
    · exact dbc k hm hk
  have h4 : mergeObjEntries ea (eb ++ ec) = ea ++ (eb ++ ec) := by
    refine mergeObjEntries_disjoint ea (eb ++ ec) ?_ (fun k hk => ?_)
    · rw [List.map_append]
      exact List.Nodup.append hb hc (fun a ha hb2 => dbc a ha hb2)
    · intro hmem
      rw [show (eb ++ ec).map Prod.fst = objKeys eb ++ objKeys ec from
        List.map_append _ _ _] at hk
      rcases List.mem_append.mp hk with hm | hm
      · exact dab k hmem hm
      · exact dac k hmem hm
  show some (mergeTrees (mergeTrees (.obj ea) (.obj eb)) (.obj ec)) =
    some (mergeTrees (.obj ea) (mergeTrees (.obj eb) (.obj ec)))
  have hm1 : ∀ (x y : List (String × Tree)),
      mergeTrees (.obj x) (.obj y) = .obj (mergeObjEntries x y) := by
    intro x y
    simp [mergeTrees, mergeObjEntries]
  rw [hm1, h1, hm1, h2, hm1, h3, hm1, h4, List.append_assoc]

/-- Witness for C8 at concrete inputs. -/
theorem mergeValues_identity_assoc_witness :
    mergeValues (some (Tree.str "x")) none = some (cloneValue (Tree.str "x")) ∧
    mergeValues none (some (Tree.str "y")) = some (cloneValue (Tree.str "y")) ∧
    mergeValues (mergeValues (some (.obj [("a", Tree.null)]))
        (some (.obj [("b", Tree.null)]))) (some (.obj [("c", Tree.null)])) =
      mergeValues (some (.obj [("a", Tree.null)]))
        (mergeValues (some (.obj [("b", Tree.null)]))
          (some (.obj [("c", Tree.null)]))) := by
  refine ⟨mergeValues_identity_assoc.1 (Tree.str "x"),
    mergeValues_identity_assoc.2.1 (Tree.str "y"),
    mergeValues_identity_assoc.2.2 [("a", Tree.null)] [("b", Tree.null)]
      [("c", Tree.null)] (by simp) (by simp) ?_ ?_ ?_⟩ <;>
    · intro k hk hk2
      simp [objKeys] at hk hk2
      rw [hk] at hk2
      exact absurd hk2 (by decide)

theorem stringMk_data (s : String) : String.mk s.data = s := rfl

theorem applyVarMatch_braced (lv : List String) (env vals : Env)
    (m : List Char) (name : String) :
    applyVarMatch lv env vals ⟨[], m, true, some name, none, true⟩ =
      .ok ((lookupVar lv env vals name).data, vals) := by
  unfold applyVarMatch
  simp [ite_self]

theorem applyVarMatch_bare (lv : List String) (env vals : Env)
    (m : List Char) (name : String) :
    applyVarMatch lv env vals ⟨[], m, false, some name, none, false⟩ =
      .ok ((lookupVar lv env vals name).data, vals) := by
  unfold applyVarMatch
  simp [ite_self]

theorem applyVarMatch_bracedDefault (lv : List String) (env vals : Env)
    (m : List Char) (name : String) (sign : Char) (body : String)
    (hbody : findInvalidDefaultChar body.data = none) :
    applyVarMatch lv env vals ⟨[], m, true, some name, some (sign, body), true⟩ =
      (if lookupVar lv env vals name = "" then
        .ok (body.data, if sign = '=' then envSet vals name body else vals)
      else .ok ((lookupVar lv env vals name).data, vals)) := by
  unfold applyVarMatch
  by_cases hl : lookupVar lv env vals name = "" <;> simp [hl, hbody]

/-- C4: during `$NAME` / `${NAME}` interpolation, the looked-up value is
chosen by this precedence: the current parse's value when `NAME` is in
the loaded-by-us set (`NODE_DOTENV_VARS`) and the parse has produced one;
otherwise the process-environment value when set; otherwise any value
produced earlier in the current parse; otherwise the empty string —
stated for the name `FOO` over arbitrary process environments and parse
value maps, in both the braced and the bare form. -/
theorem resolveVariables_precedence (env vals : Env) :
    resolveVariables (sentinelSet env) env vals "${FOO}" =
      .ok ((if (sentinelSet env).contains "FOO" &&
            (lookupEnv vals "FOO").isSome then (lookupEnv vals "FOO").getD ""
          else if (lookupEnv env "FOO").isSome then
            (lookupEnv env "FOO").getD ""
          else if (lookupEnv vals "FOO").isSome then
            (lookupEnv vals "FOO").getD ""
          else ""), vals) ∧
    resolveVariables (sentinelSet env) env vals "$FOO" =
      .ok ((if (sentinelSet env).contains "FOO" &&
            (lookupEnv vals "FOO").isSome then (lookupEnv vals "FOO").getD ""
          else if (lookupEnv env "FOO").isSome then
            (lookupEnv env "FOO").getD ""
          else if (lookupEnv vals "FOO").isSome then
            (lookupEnv vals "FOO").getD ""
          else ""), vals) := by
  constructor
  · have hstep : resolveVariables (sentinelSet env) env vals "${FOO}" =
        (match (match applyVarMatch (sentinelSet env) env vals
            ⟨[], ['$', '{', 'F', 'O', 'O', '}'], true, some "FOO", none,
              true⟩ with
          | Except.error e => Except.error e
          | Except.ok (repl, vals') =>
            match rvGo (sentinelSet env) env 6 vals' [] with
            | Except.ok (out, vals2) => Except.ok (repl ++ out, vals2)
            | Except.error e => Except.error e) with
        | Except.ok (out, vals') =>
          (Except.ok (String.mk out, vals') : Except FormatErr (String × Env))
        | Except.error e => Except.error e) := rfl
    rw [hstep, applyVarMatch_braced]
    show Except.ok (String.mk
      ((lookupVar (sentinelSet env) env vals "FOO").data ++ []), vals) = _
    rw [List.append_nil, stringMk_data]
    rfl
  · have hstep : resolveVariables (sentinelSet env) env vals "$FOO" =
        (match (match applyVarMatch (sentinelSet env) env vals
            ⟨[], ['$', 'F', 'O', 'O'], false, some "FOO", none, false⟩ with
          | Except.error e => Except.error e
          | Except.ok (repl, vals') =>
            match rvGo (sentinelSet env) env 4 vals' [] with
            | Except.ok (out, vals2) => Except.ok (repl ++ out, vals2)
            | Except.error e => Except.error e) with
        | Except.ok (out, vals') =>
          (Except.ok (String.mk out, vals') : Except FormatErr (String × Env))
        | Except.error e => Except.error e) := rfl
    rw [hstep, applyVarMatch_bare]
    show Except.ok (String.mk
      ((lookupVar (sentinelSet env) env vals "FOO").data ++ []), vals) = _
    rw [List.append_nil, stringMk_data]
    rfl

/-- C6 (amended): `${NAME:-DEFAULT}` yields `DEFAULT` only when the
looked-up value is empty and does not change the parse's value map;
`${NAME:=DEFAULT}` yields `DEFAULT` when the looked-up value is empty and
additionally stores `NAME=DEFAULT` in the parse's value map; a later
reference to `NAME` in the same parse then sees `DEFAULT` provided `NAME`
is in the loaded-by-us set or is unset in the process environment
(otherwise the process-environment value takes precedence over the stored
default). -/
theorem resolveVariables_default_modifiers (env vals : Env) :
    (resolveVariables (sentinelSet env) env vals "${FOO:-TEST}" =
      (if lookupVar (sentinelSet env) env vals "FOO" = "" then
        .ok ("TEST", vals)
      else .ok (lookupVar (sentinelSet env) env vals "FOO", vals))) ∧
    (resolveVariables (sentinelSet env) env vals "${FOO:=TEST}" =
      (if lookupVar (sentinelSet env) env vals "FOO" = "" then
        .ok ("TEST", envSet vals "FOO" "TEST")
      else .ok (lookupVar (sentinelSet env) env vals "FOO", vals))) ∧
    (("FOO" ∈ sentinelSet env ∨ lookupEnv env "FOO" = none) →
      resolveVariables (sentinelSet env) env (envSet vals "FOO" "TEST")
          "$FOO" =
        .ok ("TEST", envSet vals "FOO" "TEST")) := by
  refine ⟨?_, ?_, fun hcase => ?_⟩
  · have hstep : resolveVariables (sentinelSet env) env vals "${FOO:-TEST}" =
        (match (match applyVarMatch (sentinelSet env) env vals
            ⟨[], ['$', '{', 'F', 'O', 'O', ':', '-', 'T', 'E', 'S', 'T', '}'],
              true, some "FOO", some ('-', "TEST"), true⟩ with
          | Except.error e => Except.error e
          | Except.ok (repl, vals') =>
            match rvGo (sentinelSet env) env 12 vals' [] with
            | Except.ok (out, vals2) => Except.ok (repl ++ out, vals2)
            | Except.error e => Except.error e) with
        | Except.ok (out, vals') =>
          (Except.ok (String.mk out, vals') : Except FormatErr (String × Env))
        | Except.error e => Except.error e) := rfl
    rw [hstep, applyVarMatch_bracedDefault _ _ _ _ "FOO" '-' "TEST" rfl]
    by_cases hl : lookupVar (sentinelSet env) env vals "FOO" = ""
    · rw [if_pos hl, if_pos hl]
      show Except.ok (String.mk ("TEST".data ++ []), vals) = _
      rw [List.append_nil, stringMk_data]
    · rw [if_neg hl, if_neg hl]
      show Except.ok (String.mk
        ((lookupVar (sentinelSet env) env vals "FOO").data ++ []), vals) = _
      rw [List.append_nil, stringMk_data]
  · have hstep : resolveVariables (sentinelSet env) env vals "${FOO:=TEST}" =
        (match (match applyVarMatch (sentinelSet env) env vals
            ⟨[], ['$', '{', 'F', 'O', 'O', ':', '=', 'T', 'E', 'S', 'T', '}'],
              true, some "FOO", some ('=', "TEST"), true⟩ with
          | Except.error e => Except.error e
          | Except.ok (repl, vals') =>
            match rvGo (sentinelSet env) env 12 vals' [] with
            | Except.ok (out, vals2) => Except.ok (repl ++ out, vals2)
            | Except.error e => Except.error e) with
        | Except.ok (out, vals') =>
          (Except.ok (String.mk out, vals') : Except FormatErr (String × Env))
        | Except.error e => Except.error e) := rfl
    rw [hstep, applyVarMatch_bracedDefault _ _ _ _ "FOO" '=' "TEST" rfl]
    by_cases hl : lookupVar (sentinelSet env) env vals "FOO" = ""
    · rw [if_pos hl, if_pos hl]
      show Except.ok (String.mk ("TEST".data ++ []),
        if ('=' : Char) = '=' then envSet vals "FOO" "TEST" else vals) = _
      rw [List.append_nil, stringMk_data, if_pos rfl]
    · rw [if_neg hl, if_neg hl]
      show Except.ok (String.mk
        ((lookupVar (sentinelSet env) env vals "FOO").data ++ []), vals) = _
      rw [List.append_nil, stringMk_data]
  · have hstep : resolveVariables (sentinelSet env) env
        (envSet vals "FOO" "TEST") "$FOO" =
        (match (match applyVarMatch (sentinelSet env) env
            (envSet vals "FOO" "TEST")
            ⟨[], ['$', 'F', 'O', 'O'], false, some "FOO", none, false⟩ with
          | Except.error e => Except.error e
          | Except.ok (repl, vals') =>
            match rvGo (sentinelSet env) env 4 vals' [] with
            | Except.ok (out, vals2) => Except.ok (repl ++ out, vals2)
            | Except.error e => Except.error e) with
        | Except.ok (out, vals') =>
          (Except.ok (String.mk out, vals') : Except FormatErr (String × Env))
        | Except.error e => Except.error e) := rfl
    rw [hstep, applyVarMatch_bare]
    show Except.ok (String.mk ((lookupVar (sentinelSet env) env
      (envSet vals "FOO" "TEST") "FOO").data ++ []),
      envSet vals "FOO" "TEST") = _
    rw [List.append_nil, stringMk_data]
    have hself : lookupEnv (envSet vals "FOO" "TEST") "FOO" = some "TEST" :=
      lookupEnv_envSet_self vals "FOO" "TEST"
    have hlook : lookupVar (sentinelSet env) env
        (envSet vals "FOO" "TEST") "FOO" = "TEST" := by
      unfold lookupVar
      rcases hcase with hmem | hnone
      · rw [if_pos]
        · rw [hself]; rfl
        · rw [hself]
          simp
          exact hmem
      · by_cases hc : (sentinelSet env).contains "FOO" &&
            (lookupEnv (envSet vals "FOO" "TEST") "FOO").isSome
        · rw [if_pos hc, hself]; rfl
        · rw [if_neg hc, if_neg (by rw [hnone]; simp), if_pos
            (by rw [hself]; rfl), hself]
          rfl
    rw [hlook]

/-- Witness for C6's amended statement at a concrete input. -/
theorem resolveVariables_default_modifiers_witness :
    resolveVariables [] [] [] "${FOO:-TEST}" = .ok ("TEST", []) ∧
    resolveVariables [] [] [] "${FOO:=TEST}" =
      .ok ("TEST", [("FOO", "TEST")]) ∧
    resolveVariables [] [] [("FOO", "TEST")] "$FOO" =
      .ok ("TEST", [("FOO", "TEST")]) := by
  have h := resolveVariables_default_modifiers [] []
  refine ⟨?_, ?_, ?_⟩
  · rw [show resolveVariables [] [] [] "${FOO:-TEST}" =
      resolveVariables (sentinelSet []) [] [] "${FOO:-TEST}" from rfl, h.1]
    decide
  · rw [show resolveVariables [] [] [] "${FOO:=TEST}" =
      resolveVariables (sentinelSet []) [] [] "${FOO:=TEST}" from rfl, h.2.1]
    decide
  · have h3 := h.2.2 (Or.inr rfl)
    rw [show resolveVariables [] [] [("FOO", "TEST")] "$FOO" =
      resolveVariables (sentinelSet []) [] (envSet [] "FOO" "TEST") "$FOO"
      from rfl, h3]
    rfl

/-- Counterexample for C6 as stated: with `FOO` set to the empty string in
the process environment and not in the loaded-by-us set,
`${FOO:=TEST}` yields `TEST` and stores `FOO=TEST` in the parse's value
map, yet a later reference `$FOO` in the same parse resolves through the
process environment and yields `""`, not the stored default. -/
theorem resolveVariables_later_ref_counterexample :
    resolveVariables [] [("FOO", "")] [] "${FOO:=TEST}" =
      .ok ("TEST", [("FOO", "TEST")]) ∧
    resolveVariables [] [("FOO", "")] [("FOO", "TEST")] "$FOO" =
      .ok ("", [("FOO", "TEST")]) ∧
    ("" : String) ≠ "TEST" := by decide


theorem rpString_full_port (acc : String → Except MissingEnvErr String)
    (v : String) (h : acc "PORT" = Except.ok v) :
    rpString acc "%env(number:PORT)%" = Except.ok (Tree.num (jsNumber v)) := by
  have hstep : rpString acc "%env(number:PORT)%" =
      Except.map (fun raw => coerceEnvValue raw (some "number"))
        (acc "PORT") := rfl
  rw [hstep, h]
  rfl

theorem replaceEnvGo_http (acc : String → Except MissingEnvErr String)
    (v : String) (h : acc "PORT" = Except.ok v) :
    replaceEnvGo acc 27 "http://h:%env(number:PORT)%".data =
      Except.ok ("http://h:".data ++
        (treeToJsString (coerceEnvValue v (some "number"))).data) := by
  have hstep : replaceEnvGo acc 27 "http://h:%env(number:PORT)%".data =
      Except.map (fun t => 'h' :: t)
        (Except.map (fun t => 't' :: t)
          (Except.map (fun t => 't' :: t)
            (Except.map (fun t => 'p' :: t)
              (Except.map (fun t => ':' :: t)
                (Except.map (fun t => '/' :: t)
                  (Except.map (fun t => '/' :: t)
                    (Except.map (fun t => 'h' :: t)
                      (Except.map (fun t => ':' :: t)
                        ((acc "PORT").bind fun raw =>
                          Except.map
                            (fun tail =>
                              (treeToJsString
                                (coerceEnvValue raw (some "number"))).data ++
                                tail)
                            (Except.ok [])))))))))) := rfl
  rw [hstep, h]
  show Except.ok ('h' :: 't' :: 't' :: 'p' :: ':' :: '/' :: '/' :: 'h' ::
    ':' :: ((treeToJsString (coerceEnvValue v (some "number"))).data ++ [])) = _
  rw [List.append_nil]
  rfl

theorem rpString_embedded_port (acc : String → Except MissingEnvErr String)
    (v : String) (h : acc "PORT" = Except.ok v) :
    rpString acc "http://h:%env(number:PORT)%" =
      Except.ok (Tree.str ("http://h:" ++
        treeToJsString (Tree.num (jsNumber v)))) := by
  have hstep : rpString acc "http://h:%env(number:PORT)%" =
      Except.map (fun cs => Tree.str (String.mk cs))
        (replaceEnvGo acc 27 "http://h:%env(number:PORT)%".data) := rfl
  rw [hstep, replaceEnvGo_http acc v h]
  rfl

/-- C5: when a string in the merged tree is resolved against an accessor
that yields a value `v` for `PORT`, a string whose entire content is the
single placeholder `"%env(number:PORT)%"` becomes the coerced native
number `Number(v)`, while the same placeholder embedded in
`"http://h:%env(number:PORT)%"` is replaced by the stringified coerced
value inside the retained surrounding string. -/
theorem resolvePlaceholders_typed (acc : String → Except MissingEnvErr String)
    (v : String) (h : acc "PORT" = Except.ok v) :
    resolvePlaceholders acc
      (Tree.obj [("port", Tree.str "%env(number:PORT)%"),
                 ("url", Tree.str "http://h:%env(number:PORT)%")]) =
      Except.ok (Tree.obj [("port", Tree.num (jsNumber v)),
        ("url", Tree.str ("http://h:" ++
          treeToJsString (Tree.num (jsNumber v))))]) := by
  have hstep : resolvePlaceholders acc
      (Tree.obj [("port", Tree.str "%env(number:PORT)%"),
                 ("url", Tree.str "http://h:%env(number:PORT)%")]) =
      Except.map (fun es => Tree.obj es)
        ((rpString acc "%env(number:PORT)%").bind fun t1 =>
          Except.map (fun es2 => ("port", t1) :: es2)
            ((rpString acc "http://h:%env(number:PORT)%").bind fun t2 =>
              Except.map (fun es2 => ("url", t2) :: es2)
                (Except.ok []))) := rfl
  rw [hstep, rpString_full_port acc v h, rpString_embedded_port acc v h]
  rfl

/-- Witness for C5 at the spec's example input `PORT=8080`. -/
theorem resolvePlaceholders_typed_witness :
    (fun n => if n = "PORT" then Except.ok "8080"
      else Except.error (⟨n⟩ : MissingEnvErr)) "PORT" = Except.ok "8080" ∧
    resolvePlaceholders (fun n => if n = "PORT" then Except.ok "8080"
        else Except.error (⟨n⟩ : MissingEnvErr))
      (Tree.obj [("port", Tree.str "%env(number:PORT)%"),
                 ("url", Tree.str "http://h:%env(number:PORT)%")]) =
      Except.ok (Tree.obj [("port", Tree.num (some 8080)),
        ("url", Tree.str "http://h:8080")]) := by
  refine ⟨rfl, ?_⟩
  rw [resolvePlaceholders_typed (fun n => if n = "PORT" then Except.ok "8080"
    else Except.error (⟨n⟩ : MissingEnvErr)) "8080" rfl]
  rfl

/-- C1: the claim states that when a `$(...)` command substitution fails
(non-zero exit status or execution error) the parser preserves the literal
`$(...)` text and completes without raising.  The code does the opposite:
`executeCommand` throws `FormatError "Issue expanding a command (...)"`,
which propagates out of `resolveCommands`; the literal text is not
preserved.  Evaluated here at the failing input `$(false)` with a runner
that reports failure with empty stderr. -/
theorem resolveCommands_failure_raises :
    resolveCommands (fun _ _ => Except.error "") [] [] [] "$(false)" =
      Except.error ⟨"Issue expanding a command ()"⟩ ∧
    (Except.error (⟨"Issue expanding a command ()"⟩ : FormatErr) ≠
      (Except.ok "$(false)" : Except FormatErr String)) := by
  exact ⟨rfl, by decide⟩

end ConfigTs
